import Mathlib

/-!
Verification model of the schema synchronization and query-validation
subsystem of the budibase-mcp repository.

The subsystem consists of three components, translated here as pure
Lean functions over explicit state:

* `SchemaRegistry` (src: schema-registry.ts): a persistent, versioned
  registry of application/table/field metadata backed by SQLite, with
  an in-memory read-through cache and an EventEmitter change channel.
  The SQLite database is modelled as three lists of rows
  (`applications`, `tables`, `schema_versions`); the per-application
  transaction (`BEGIN` … `COMMIT`/`ROLLBACK`) is modelled by a
  fault-injection variant in which database writes are numbered and a
  chosen write throws, after which `ROLLBACK` restores the database
  rows (and only them) to the pre-call state.
* `SmartQueryBuilder` (src: smart-query-builder.ts): stateless query
  validation, optimization and free-text suggestion over the
  registry's schemas.
* `EnhancedBudibaseClient` (src: enhanced-client.ts): the sync
  orchestrator holding the registry, the interval map, and the
  EventEmitter listener list.

`JSON.stringify(table.schema)` is modelled by `serializeSchema` over
insertion-ordered association lists (JavaScript objects enumerate
string keys in insertion order, which `JSON.stringify` follows; no key
sorting happens anywhere in the source).  `calculateChecksum` is the
source's `crypto.createHash('md5').update(data).digest('hex')`,
modelled by a full executable MD5 over the ASCII bytes of the
serialized text (all serialized schemas in scope are ASCII).

Numbers crossing the JavaScript boundary (query limits, range bounds)
are modelled as `Int`; JavaScript truthiness of a number is `≠ 0`.
-/

set_option maxRecDepth 40000

/-! ## MD5 (node `crypto` md5 hex digest), executable -/

/-- 2^32, the modulus of 32-bit MD5 arithmetic. -/
def w32 : Nat := 4294967296

/-- 32-bit left rotation. -/
def rotl32 (x n : Nat) : Nat := ((x <<< n) ||| (x >>> (32 - n))) % w32

/-- The 64 MD5 round constants, `floor(2^32 * abs(sin(i+1)))`. -/
def md5K : List Nat :=
  [0xd76aa478, 0xe8c7b756, 0x242070db, 0xc1bdceee,
   0xf57c0faf, 0x4787c62a, 0xa8304613, 0xfd469501,
   0x698098d8, 0x8b44f7af, 0xffff5bb1, 0x895cd7be,
   0x6b901122, 0xfd987193, 0xa679438e, 0x49b40821,
   0xf61e2562, 0xc040b340, 0x265e5a51, 0xe9b6c7aa,
   0xd62f105d, 0x02441453, 0xd8a1e681, 0xe7d3fbc8,
   0x21e1cde6, 0xc33707d6, 0xf4d50d87, 0x455a14ed,
   0xa9e3e905, 0xfcefa3f8, 0x676f02d9, 0x8d2a4c8a,
   0xfffa3942, 0x8771f681, 0x6d9d6122, 0xfde5380c,
   0xa4beea44, 0x4bdecfa9, 0xf6bb4b60, 0xbebfbc70,
   0x289b7ec6, 0xeaa127fa, 0xd4ef3085, 0x04881d05,
   0xd9d4d039, 0xe6db99e5, 0x1fa27cf8, 0xc4ac5665,
   0xf4292244, 0x432aff97, 0xab9423a7, 0xfc93a039,
   0x655b59c3, 0x8f0ccc92, 0xffeff47d, 0x85845dd1,
   0x6fa87e4f, 0xfe2ce6e0, 0xa3014314, 0x4e0811a1,
   0xf7537e82, 0xbd3af235, 0x2ad7d2bb, 0xeb86d391]

/-- The 64 MD5 per-round shift amounts. -/
def md5S : List Nat :=
  [7, 12, 17, 22, 7, 12, 17, 22, 7, 12, 17, 22, 7, 12, 17, 22,
   5, 9, 14, 20, 5, 9, 14, 20, 5, 9, 14, 20, 5, 9, 14, 20,
   4, 11, 16, 23, 4, 11, 16, 23, 4, 11, 16, 23, 4, 11, 16, 23,
   6, 10, 15, 21, 6, 10, 15, 21, 6, 10, 15, 21, 6, 10, 15, 21]

/-- The MD5 round function, by round index. -/
def md5F (i b c d : Nat) : Nat :=
  if i < 16 then (b &&& c) ||| ((b ^^^ 0xffffffff) &&& d)
  else if i < 32 then (d &&& b) ||| ((d ^^^ 0xffffffff) &&& c)
  else if i < 48 then b ^^^ c ^^^ d
  else c ^^^ (b ||| (d ^^^ 0xffffffff))

/-- The MD5 message-word index, by round index. -/
def md5G (i : Nat) : Nat :=
  if i < 16 then i % 16
  else if i < 32 then (5 * i + 1) % 16
  else if i < 48 then (3 * i + 5) % 16
  else (7 * i) % 16

/-- One MD5 round on the state `(a, b, c, d)`. -/
def md5Step (m : List Nat) (st : Nat × Nat × Nat × Nat) (i : Nat) : Nat × Nat × Nat × Nat :=
  let a := st.1; let b := st.2.1; let c := st.2.2.1; let d := st.2.2.2
  let f := (md5F i b c d + a + md5K.getD i 0 + m.getD (md5G i) 0) % w32
  (d, (b + rotl32 f (md5S.getD i 0)) % w32, b, c)

/-- One 512-bit MD5 block: 64 rounds followed by the feed-forward addition. -/
def md5Block (st : Nat × Nat × Nat × Nat) (m : List Nat) : Nat × Nat × Nat × Nat :=
  let r := (List.range 64).foldl (md5Step m) st
  ((st.1 + r.1) % w32, (st.2.1 + r.2.1) % w32, (st.2.2.1 + r.2.2.1) % w32,
   (st.2.2.2 + r.2.2.2) % w32)

/-- Group a 64-byte block into 16 little-endian 32-bit words. -/
def toWordsLE : List Nat → List Nat
  | b0 :: b1 :: b2 :: b3 :: rest =>
      (b0 + 256 * b1 + 65536 * b2 + 16777216 * b3) :: toWordsLE rest
  | _ => []

/-- Split a byte list into 64-byte chunks (fuelled by the list length). -/
def chunks64Aux : Nat → List Nat → List (List Nat)
  | 0, _ => []
  | _, [] => []
  | fuel + 1, l => l.take 64 :: chunks64Aux fuel (l.drop 64)

/-- Split a byte list into 64-byte chunks. -/
def chunks64 (l : List Nat) : List (List Nat) := chunks64Aux l.length l

/-- The 8 little-endian bytes of the 64-bit bit-length field. -/
def lenBytesLE (n : Nat) : List Nat := (List.range 8).map (fun i => (n >>> (8 * i)) % 256)

/-- MD5 padding: a 1-bit, zeros to 56 mod 64 bytes, then the bit length. -/
def md5Pad (msg : List Nat) : List Nat :=
  let len := msg.length
  let zeros := (120 - (len + 1) % 64) % 64
  msg ++ [128] ++ List.replicate zeros 0 ++ lenBytesLE ((len * 8) % 2 ^ 64)

/-- The 4 little-endian bytes of a 32-bit word. -/
def wordBytesLE (n : Nat) : List Nat :=
  [n % 256, (n >>> 8) % 256, (n >>> 16) % 256, (n >>> 24) % 256]

/-- The 16-byte MD5 digest of a byte list. -/
def md5Bytes (msg : List Nat) : List Nat :=
  let blocks := chunks64 (md5Pad msg)
  let r := blocks.foldl (fun st blk => md5Block st (toWordsLE blk))
      (0x67452301, 0xefcdab89, 0x98badcfe, 0x10325476)
  wordBytesLE r.1 ++ wordBytesLE r.2.1 ++ wordBytesLE r.2.2.1 ++ wordBytesLE r.2.2.2

/-- Lowercase hex digit. -/
def hexChar (n : Nat) : Char := "0123456789abcdef".data.getD n (Char.ofNat 48)

/-- Lowercase hex rendering of a byte list (node's `digest('hex')`). -/
def bytesToHex (bs : List Nat) : String :=
  String.mk (bs.foldr (fun b acc => hexChar (b / 16) :: hexChar (b % 16) :: acc) [])

/-- Byte view of an ASCII string (equal to its UTF-8 bytes on ASCII input;
every serialized schema below is ASCII). -/
def stringBytes (s : String) : List Nat := s.data.map Char.toNat

/-! ## Data model (src/types: `BudibaseApp`, `BudibaseTable`, `BudibaseField`) -/

/-- Field types, from the `BudibaseField.type` string-literal union. -/
inductive FieldType
  | string
  | number
  | boolean
  | datetime
  | attachment
  | link
  | formula
  | auto
  | json
deriving DecidableEq, Repr

/-- The JSON text of a field type. -/
def FieldType.str : FieldType → String
  | .string => "string"
  | .number => "number"
  | .boolean => "boolean"
  | .datetime => "datetime"
  | .attachment => "attachment"
  | .link => "link"
  | .formula => "formula"
  | .auto => "auto"
  | .json => "json"

/-- The `constraints` sub-object of a field; only `presence` is ever read
by this subsystem (in `optimizeQuery`'s index hint). -/
structure SchemaConstraints where
  presence : Option Bool := none
deriving DecidableEq, Repr

/-- A field definition.  Of the `BudibaseField` interface we model the
properties this subsystem reads: `type`, `name`, and
`constraints.presence`.  `JSON.stringify` emits the properties of a
field object in its own insertion order; we fix the order
`type`, `name`, `constraints`. -/
structure BudibaseField where
  type : FieldType
  name : String
  constraints : Option SchemaConstraints := none
deriving DecidableEq, Repr

/-- A table schema: a JavaScript object mapping field names to field
definitions, i.e. an insertion-ordered association list. -/
def Schema := List (String × BudibaseField)
deriving DecidableEq, Repr

/-- A table (`BudibaseTable`): id, name, kind, schema, display field. -/
structure BudibaseTable where
  _id : String
  name : String
  type : String
  schema : Schema
  primaryDisplay : Option String := none
deriving DecidableEq, Repr

/-- An application (`BudibaseApp`); the fields `syncApplication` reads. -/
structure BudibaseApp where
  _id : String
  name : String
  url : Option String := none
  status : String
  createdAt : String
  updatedAt : String
  tenantId : Option String := none
  template : Option String := none
deriving DecidableEq, Repr

/-! ## JSON serialization (`JSON.stringify`, insertion order, no sorting) -/

/-- `JSON.stringify` of a field definition, in the fixed property order
`type`, `name`, `constraints` (omitted when absent, as `JSON.stringify`
omits `undefined` properties). -/
def serializeField (f : BudibaseField) : String :=
  "\x7b\"type\":\"" ++ f.type.str ++ "\",\"name\":\"" ++ f.name ++ "\"" ++
  (match f.constraints with
   | none => ""
   | some c =>
     ",\"constraints\":\x7b" ++
     (match c.presence with
      | none => ""
      | some b => "\"presence\":" ++ (if b then "true" else "false")) ++
     "\x7d") ++
  "\x7d"

/-- `JSON.stringify(table.schema)`: the fields in their insertion
(enumeration) order — the source performs no canonicalization. -/
def serializeSchema (s : Schema) : String :=
  "\x7b" ++
  String.intercalate "," (s.map (fun p => "\"" ++ p.1 ++ "\":" ++ serializeField p.2)) ++
  "\x7d"

/-- `JSON.stringify` of the metadata blob `syncApplication` builds from
the app (`createdAt`, `updatedAt`, `tenantId`, `template`). -/
def serializeAppMetadata (app : BudibaseApp) : String :=
  "\x7b\"createdAt\":\"" ++ app.createdAt ++ "\",\"updatedAt\":\"" ++ app.updatedAt ++ "\"" ++
  (match app.tenantId with
   | some t => ",\"tenantId\":\"" ++ t ++ "\""
   | none => "") ++
  (match app.template with
   | some t => ",\"template\":\"" ++ t ++ "\""
   | none => "") ++
  "\x7d"

/-! ## SchemaRegistry state (src: schema-registry.ts) -/

/-- A row of the `applications` table.  The SQLite timestamp columns
`created_at`/`updated_at` are not modelled (nothing reads them);
`last_synced` is a `Nat` instant. -/
structure AppRow where
  app_id : String
  name : String
  url : Option String
  status : String
  metadata : String
  last_synced : Nat
deriving DecidableEq, Repr

/-- A row of the `tables` table.  The `schema` column stores the JSON
text `serializeSchema schema`; we keep the parsed value (reading the
column parses it back, and parse ∘ stringify is the identity on this
value space). -/
structure TableRow where
  table_id : String
  app_id : String
  name : String
  type : String
  primary_display : Option String
  schema : Schema
deriving DecidableEq, Repr

/-- A row of the `schema_versions` table; `schema` holds the JSON text
exactly as inserted. -/
structure VersionRow where
  app_id : String
  table_id : String
  version : Nat
  schema : String
  checksum : String
deriving DecidableEq, Repr

/-- The `appCache` entry (`AppMetadata` in the source); `metadata` holds
the serialized blob. -/
structure AppMetadata where
  appId : String
  name : String
  url : Option String
  status : String
  lastSynced : Nat
  metadata : String
deriving DecidableEq, Repr

/-- The payload of a `schemaChanged` event.  `previousSchema` is
`JSON.parse` of the stored text (the stored schema value), `newSchema`
is the incoming `table.schema` object. -/
structure SchemaChange where
  appId : String
  tableId : String
  version : Nat
  previousSchema : Option Schema
  newSchema : Schema
deriving DecidableEq, Repr

/-- The full state of a `SchemaRegistry` instance: the three SQLite
tables and the two in-memory `Map` caches. -/
structure RegistryState where
  apps : List AppRow
  tables : List TableRow
  versions : List VersionRow
  schemaCache : List (String × BudibaseTable)
  appCache : List (String × AppMetadata)
deriving DecidableEq, Repr

/-- The state right after `initialize()` on a fresh database. -/
def initState : RegistryState :=
  { apps := [], tables := [], versions := [], schemaCache := [], appCache := [] }

/-- `Map.get` on an insertion-ordered association list. -/
def alistGet {α : Type} (l : List (String × α)) (k : String) : Option α :=
  (l.find? (fun p => p.1 == k)).map (fun p => p.2)

/-- `Map.set` on an insertion-ordered association list: replace in
place if the key is present, append otherwise. -/
def alistSet {α : Type} (l : List (String × α)) (k : String) (v : α) : List (String × α) :=
  if l.any (fun p => p.1 == k) then
    l.map (fun p => if p.1 == k then (k, v) else p)
  else l ++ [(k, v)]

/-- `SELECT * FROM tables WHERE table_id = ?`. -/
def findTableRow (rows : List TableRow) (tid : String) : Option TableRow :=
  rows.find? (fun r => r.table_id == tid)

/-- The tables-row upsert of `syncApplication`: `INSERT … ON
CONFLICT(table_id) DO UPDATE SET name, type, primary_display, schema`.
On conflict the existing row keeps its `app_id` (the update list does
not include it). -/
def upsertTableRow (rows : List TableRow) (appId : String) (t : BudibaseTable) : List TableRow :=
  if rows.any (fun r => r.table_id == t._id) then
    rows.map (fun r =>
      if r.table_id == t._id then
        { r with name := t.name, type := t.type, primary_display := t.primaryDisplay,
                 schema := t.schema }
      else r)
  else
    rows ++ [{ table_id := t._id, app_id := appId, name := t.name, type := t.type,
               primary_display := t.primaryDisplay, schema := t.schema }]

/-- The applications-row upsert of `syncApplication`. -/
def upsertAppRow (rows : List AppRow) (app : BudibaseApp) (now : Nat) : List AppRow :=
  let row : AppRow :=
    { app_id := app._id, name := app.name, url := app.url, status := app.status,
      metadata := serializeAppMetadata app, last_synced := now }
  if rows.any (fun r => r.app_id == app._id) then
    rows.map (fun r => if r.app_id == app._id then row else r)
  else rows ++ [row]

/-- The `appCache` entry `syncApplication` writes at the end. -/
def mkAppMetadata (app : BudibaseApp) (now : Nat) : AppMetadata :=
  { appId := app._id, name := app.name, url := app.url, status := app.status,
    lastSynced := now, metadata := serializeAppMetadata app }

namespace SchemaRegistry

/-- `calculateChecksum`: md5 hex digest of the given text
(`crypto.createHash('md5').update(data).digest('hex')`). -/
def calculateChecksum (data : String) : String := bytesToHex (md5Bytes (stringBytes data))

/-- `getNextVersion`: `SELECT MAX(version) … WHERE table_id = ?`, with
`|| 0` for the NULL of an empty table, plus one. -/
def maxVersion (versions : List VersionRow) (tid : String) : Nat :=
  versions.foldl (fun acc v => if v.table_id == tid then max acc v.version else acc) 0

/-- `getNextVersion tableId = (MAX(version) or 0) + 1`. -/
def getNextVersion (st : RegistryState) (tid : String) : Nat := maxVersion st.versions tid + 1

/-- One database write statement executed inside the sync transaction. -/
inductive Write
  | upsertApp (appId : String)
  | upsertTable (tableId : String)
  | insertVersion (tableId : String) (version : Nat)
deriving DecidableEq, Repr

/-- Accumulated effect of a (successful) sync in progress: the state,
the write statements executed, and the `schemaChanged` events emitted. -/
structure SyncStep where
  st : RegistryState
  writes : List Write
  notifs : List SchemaChange
deriving DecidableEq, Repr

/-- The per-table body of `syncApplication`'s loop: serialize and hash
the incoming schema, compare with the checksum of the stored `tables`
row, and if different (or the row is absent) upsert the row, append a
`schema_versions` row at `getNextVersion`, and emit `schemaChanged`;
in every case set the `schemaCache` entry. -/
def syncTable (appId : String) (acc : SyncStep) (table : BudibaseTable) : SyncStep :=
  let schemaJson := serializeSchema table.schema
  let checksum := calculateChecksum schemaJson
  let existing := findTableRow acc.st.tables table._id
  let changed := match existing with
    | none => true
    | some row => calculateChecksum (serializeSchema row.schema) != checksum
  let acc1 :=
    if changed then
      let st1 := { acc.st with tables := upsertTableRow acc.st.tables appId table }
      let version := getNextVersion st1 table._id
      let vrow : VersionRow :=
        { app_id := appId, table_id := table._id, version := version,
          schema := schemaJson, checksum := checksum }
      let st2 := { st1 with versions := st1.versions ++ [vrow] }
      let change : SchemaChange :=
        { appId := appId, tableId := table._id, version := version,
          previousSchema := existing.map (fun r => r.schema), newSchema := table.schema }
      { st := st2,
        writes := acc.writes ++ [Write.upsertTable table._id, Write.insertVersion table._id version],
        notifs := acc.notifs ++ [change] }
    else acc
  { acc1 with st := { acc1.st with schemaCache := alistSet acc1.st.schemaCache table._id table } }

/-- `syncApplication(app, tables)` on the success path: upsert the
application row, run the per-table loop, set the `appCache` entry,
`COMMIT`.  Returns the new state, the executed writes in order, and
the emitted `schemaChanged` events in order. -/
def syncApplication (st : RegistryState) (app : BudibaseApp) (tables : List BudibaseTable)
    (now : Nat) : SyncStep :=
  let st0 := { st with apps := upsertAppRow st.apps app now }
  let acc := tables.foldl (syncTable app._id) ⟨st0, [Write.upsertApp app._id], []⟩
  { acc with st := { acc.st with appCache := alistSet acc.st.appCache app._id (mkAppMetadata app now) } }

/-- `getTableSchema(tableId)`: read-through — cache hit, else load the
row, parse it, populate the cache; `null` when absent from both. -/
def getTableSchema (st : RegistryState) (tableId : String) :
    Option BudibaseTable × RegistryState :=
  match alistGet st.schemaCache tableId with
  | some t => (some t, st)
  | none =>
    match findTableRow st.tables tableId with
    | none => (none, st)
    | some row =>
      let t : BudibaseTable :=
        { _id := row.table_id, name := row.name, type := row.type,
          schema := row.schema, primaryDisplay := row.primary_display }
      (some t, { st with schemaCache := alistSet st.schemaCache tableId t })

/-- `needsSync(appId, maxAge)`: `true` when the app is not in the
`appCache`, or its age exceeds `maxAge`.  JavaScript would compare a
negative age when `lastSynced` is in the future; truncated `Nat`
subtraction gives 0, and both sides answer `false` there. -/
def needsSync (st : RegistryState) (appId : String) (now : Nat) (maxAge : Nat) : Bool :=
  match alistGet st.appCache appId with
  | none => true
  | some app => now - app.lastSynced > maxAge

end SchemaRegistry

/-! ## Fault-injected sync (the transaction's ROLLBACK path)

`syncApplication` runs inside `BEGIN TRANSACTION` … `COMMIT`, with
`ROLLBACK` on any thrown error.  We number the database write
statements of one call in execution order (0-based) and let the write
numbered `failAt` throw.  `ROLLBACK` restores the three database
tables to the pre-call state; the in-memory cache mutations and the
events already emitted through the `EventEmitter` are untouched, and
the statements after the failing one never run. -/

namespace SchemaRegistry

/-- In-progress state of a fault-injected sync: registry state, number
of database writes executed so far, events emitted so far, and whether
the injected failure has been hit. -/
structure FaultyAcc where
  st : RegistryState
  nWrites : Nat
  notifs : List SchemaChange
  failed : Bool
deriving DecidableEq, Repr

/-- Execute one database write, unless the run already failed or this
is the write chosen to throw. -/
def tryWrite (failAt : Nat) (acc : FaultyAcc) (f : RegistryState → RegistryState) : FaultyAcc :=
  if acc.failed then acc
  else if acc.nWrites == failAt then { acc with failed := true }
  else { acc with st := f acc.st, nWrites := acc.nWrites + 1 }

/-- The per-table loop body under fault injection, preserving the
source's statement order: tables-row upsert (write), version insert
(write), event emission, cache update — each skipped once a failure
has occurred. -/
def syncTableFaulty (failAt : Nat) (appId : String) (acc : FaultyAcc) (table : BudibaseTable) :
    FaultyAcc :=
  if acc.failed then acc else
  let schemaJson := serializeSchema table.schema
  let checksum := calculateChecksum schemaJson
  let existing := findTableRow acc.st.tables table._id
  let changed := match existing with
    | none => true
    | some row => calculateChecksum (serializeSchema row.schema) != checksum
  let acc1 :=
    if changed then
      let accA := tryWrite failAt acc
        (fun s => { s with tables := upsertTableRow s.tables appId table })
      if accA.failed then accA else
      let version := maxVersion accA.st.versions table._id + 1
      let vrow : VersionRow :=
        { app_id := appId, table_id := table._id, version := version,
          schema := schemaJson, checksum := checksum }
      let accB := tryWrite failAt accA (fun s => { s with versions := s.versions ++ [vrow] })
      if accB.failed then accB else
      { accB with notifs := accB.notifs ++
          [{ appId := appId, tableId := table._id, version := version,
             previousSchema := existing.map (fun r => r.schema), newSchema := table.schema }] }
    else acc
  if acc1.failed then acc1
  else { acc1 with st := { acc1.st with schemaCache := alistSet acc1.st.schemaCache table._id table } }

/-- Outcome of a fault-injected `syncApplication` call. -/
structure FaultyResult where
  st : RegistryState
  notifs : List SchemaChange
  failed : Bool
deriving DecidableEq, Repr

/-- `syncApplication` with the write numbered `failAt` throwing.  On
failure, `ROLLBACK` restores the database rows to the pre-call state
while the caches and the already-emitted events keep their values at
the moment of the failure (the `appCache` update is only reached on
the success path). -/
def syncApplicationFaulty (st : RegistryState) (app : BudibaseApp)
    (tables : List BudibaseTable) (now : Nat) (failAt : Nat) : FaultyResult :=
  let acc0 := tryWrite failAt ⟨st, 0, [], false⟩
    (fun s => { s with apps := upsertAppRow s.apps app now })
  let acc := tables.foldl (syncTableFaulty failAt app._id) acc0
  if acc.failed then
    { st := { apps := st.apps, tables := st.tables, versions := st.versions,
              schemaCache := acc.st.schemaCache, appCache := acc.st.appCache },
      notifs := acc.notifs, failed := true }
  else
    { st := { acc.st with
              appCache := alistSet acc.st.appCache app._id (mkAppMetadata app now) },
      notifs := acc.notifs, failed := false }

end SchemaRegistry

/-! ## Operation sequences over a registry instance -/

/-- A public `SchemaRegistry` operation (the success path of each).
`listTables` (`getApplicationTables`), `history` (`getSchemaHistory`)
and `staleCheck` (`needsSync`) only run `SELECT`s / read the cache and
leave the state unchanged; `close` clears the two caches and releases
the handle. -/
inductive RegistryOp
  | sync (app : BudibaseApp) (tables : List BudibaseTable) (now : Nat)
  | getSchema (tableId : String)
  | listTables (appId : String)
  | history (tableId : String)
  | staleCheck (appId : String) (now maxAge : Nat)
  | close

/-- State effect of one registry operation. -/
def applyOp (st : RegistryState) : RegistryOp → RegistryState
  | .sync app tables now => (SchemaRegistry.syncApplication st app tables now).st
  | .getSchema tid => (SchemaRegistry.getTableSchema st tid).2
  | .listTables _ => st
  | .history _ => st
  | .staleCheck _ _ _ => st
  | .close => { st with schemaCache := [], appCache := [] }

/-- Run a sequence of registry operations from a fresh store. -/
def runOps (ops : List RegistryOp) : RegistryState := ops.foldl applyOp initState

/-- The version numbers among a list of `schema_versions` rows that
belong to one table, in insertion order. -/
def versionsIn (vs : List VersionRow) (tid : String) : List Nat :=
  (vs.filter (fun v => v.table_id == tid)).map (fun v => v.version)

/-- The stored version numbers of one table, in insertion order
(`SELECT version FROM schema_versions WHERE table_id = ?`). -/
def versionsFor (st : RegistryState) (tid : String) : List Nat :=
  versionsIn st.versions tid

/-- The per-table version-sequence invariant: for every table the
stored version numbers are exactly `1, 2, …, N` in order. -/
def seqList (vs : List VersionRow) : Prop :=
  ∀ tid, versionsIn vs tid = List.range' 1 (versionsIn vs tid).length

/-! ## SmartQueryBuilder (src: smart-query-builder.ts) -/

/-- Sort directions of `QueryRequest.sort`. -/
inductive SortDir
  | ascending
  | descending
deriving DecidableEq, Repr

/-- A `range` filter bound pair. -/
structure RangeVal where
  low : Option Int := none
  high : Option Int := none
deriving DecidableEq, Repr

/-- A JavaScript value in an `equal`/`notEqual` filter. -/
inductive JVal
  | bool (b : Bool)
  | num (n : Int)
  | str (s : String)
deriving DecidableEq, Repr

/-- The `query` sub-object of a `QueryRequest`: the seven filter
categories, each an insertion-ordered object when present.  (The
category enumeration order of a runtime object is its property
insertion order; we fix the interface declaration order, which only
affects the ordering of collected names, never membership.) -/
structure QueryObj where
  string : Option (List (String × String)) := none
  fuzzy : Option (List (String × String)) := none
  range : Option (List (String × RangeVal)) := none
  equal : Option (List (String × JVal)) := none
  notEqual : Option (List (String × JVal)) := none
  empty : Option (List (String × Bool)) := none
  notEmpty : Option (List (String × Bool)) := none
deriving DecidableEq, Repr

/-- A `Partial<QueryRequest>` as accepted by `buildQuery`/`validateQuery`:
every property optional. -/
structure QueryInput where
  tableId : Option String := none
  query : Option QueryObj := none
  sort : Option (List (String × SortDir)) := none
  limit : Option Int := none
  bookmark : Option String := none
deriving DecidableEq, Repr

/-- `Object.keys` of an optional sub-object. -/
def keysOf {α : Type} : Option (List (String × α)) → List String
  | none => []
  | some l => l.map (fun p => p.1)

/-- All field names referenced across the filter categories, in
category-then-insertion order, with duplicates (the source collects
them into a `Set`, deduplicated by `dedupFirst` below). -/
def queryFieldEntries (q : QueryObj) : List String :=
  keysOf q.string ++ keysOf q.fuzzy ++ keysOf q.range ++ keysOf q.equal ++
  keysOf q.notEqual ++ keysOf q.empty ++ keysOf q.notEmpty

/-- JavaScript `Set` insertion: append if not yet present. -/
def setInsert (acc : List String) (x : String) : List String :=
  if acc.contains x then acc else acc ++ [x]

/-- Deduplicate keeping first occurrences (`Set` iteration order). -/
def dedupFirst (l : List String) : List String := l.foldl setInsert []

/-- A hard validation error.  The source renders these as strings:
`unknownField f t` is "Field 'f' does not exist in table 't'",
`rangeNonNumeric f ty` is "Range query on field 'f' requires numeric
type, but field is 'ty'", `unknownSortField f t` is "Sort field 'f'
does not exist in table 't'", and `limitOutOfRange` is "Limit must be
between 1 and 1000". -/
inductive VError
  | unknownField (field tableName : String)
  | rangeNonNumeric (field : String) (fieldType : FieldType)
  | unknownSortField (field tableName : String)
  | limitOutOfRange
deriving DecidableEq, Repr

/-- A validation warning ("Text search on field 'f' of type 'ty' may
not work as expected"). -/
inductive VWarning
  | textSearchNonText (field : String) (fieldType : FieldType)
deriving DecidableEq, Repr

/-- The structured result of `validateQuery`. -/
structure ValidationResult where
  valid : Bool
  errors : List VError
  warnings : List VWarning
deriving DecidableEq, Repr

namespace SmartQueryBuilder

/-- The unknown-field errors of `validateQuery`: over the deduplicated
referenced names, every name absent from the schema and not among the
filter-side reserved names `_id`, `_rev`, `tableId` is a hard error. -/
def fieldErrorsOf (table : BudibaseTable) (query : QueryInput) : List VError :=
  match query.query with
  | none => []
  | some q =>
    (dedupFirst (queryFieldEntries q)).filterMap (fun f =>
      if (alistGet table.schema f).isNone && !(["_id", "_rev", "tableId"].contains f) then
        some (VError.unknownField f table.name)
      else none)

/-- The range-type errors of `validateQuery`: every `range` target
present in the schema with a non-number type is a hard error. -/
def rangeErrorsOf (table : BudibaseTable) (query : QueryInput) : List VError :=
  match query.query with
  | none => []
  | some q =>
    match q.range with
    | none => []
    | some rs => rs.filterMap (fun p =>
        match alistGet table.schema p.1 with
        | some fs =>
          if fs.type != FieldType.number then some (VError.rangeNonNumeric p.1 fs.type)
          else none
        | none => none)

/-- The text-search warnings of `validateQuery`: keys of the merged
`{...string, ...fuzzy}` object whose schema type is not string-like. -/
def warningsOf (table : BudibaseTable) (query : QueryInput) : List VWarning :=
  match query.query with
  | none => []
  | some q =>
    if q.string.isSome || q.fuzzy.isSome then
      let textKeys :=
        keysOf q.string ++ (keysOf q.fuzzy).filter (fun k => !(keysOf q.string).contains k)
      textKeys.filterMap (fun f =>
        match alistGet table.schema f with
        | some fs =>
          if !([FieldType.string, FieldType.formula].contains fs.type) then
            some (VWarning.textSearchNonText f fs.type)
          else none
        | none => none)
    else []

/-- The sort-field errors of `validateQuery`: every sort key absent
from the schema and not among the sort-side reserved names `_id`,
`createdAt`, `updatedAt` is a hard error. -/
def sortErrorsOf (table : BudibaseTable) (query : QueryInput) : List VError :=
  match query.sort with
  | none => []
  | some s => s.filterMap (fun p =>
      if (alistGet table.schema p.1).isNone && !(["_id", "createdAt", "updatedAt"].contains p.1) then
        some (VError.unknownSortField p.1 table.name)
      else none)

/-- The limit error of `validateQuery`: the source guard is
`query.limit && (query.limit < 1 || query.limit > 1000)` — a limit of
0 is falsy in JavaScript and skips the check entirely. -/
def limitErrorsOf (query : QueryInput) : List VError :=
  match query.limit with
  | none => []
  | some l => if l != 0 && (l < 1 || l > 1000) then [VError.limitOutOfRange] else []

/-- `validateQuery(table, query)`: the error pushes happen in source
order — unknown fields, range types, (warnings aside,) sort fields,
limit — and validity is emptiness of the error list. -/
def validateQuery (table : BudibaseTable) (query : QueryInput) : ValidationResult :=
  let errors :=
    fieldErrorsOf table query ++ rangeErrorsOf table query ++
    sortErrorsOf table query ++ limitErrorsOf query
  { valid := errors.isEmpty, errors := errors, warnings := warningsOf table query }

/-- Complexity classification of `optimizeQuery`. -/
inductive Complexity
  | simple
  | moderate
  | complex
deriving DecidableEq, Repr

/-- The `hints` object attached by `optimizeQuery`. -/
structure QueryHints where
  useIndex : Option String := none
  estimatedRows : Option Int := none
  complexity : Option Complexity := none
deriving DecidableEq, Repr

/-- The result of `buildQuery`: `{ tableId, ...query, hints }` (a
`tableId` carried by the partial query overrides the table's). -/
structure OptimizedQuery where
  tableId : String
  query : Option QueryObj := none
  sort : Option (List (String × SortDir)) := none
  limit : Option Int := none
  bookmark : Option String := none
  hints : QueryHints := {}
deriving DecidableEq, Repr

/-- Total predicate count across the filter categories. -/
def conditionCount (q : QueryObj) : Nat :=
  (keysOf q.string).length + (keysOf q.fuzzy).length + (keysOf q.range).length +
  (keysOf q.equal).length + (keysOf q.notEqual).length + (keysOf q.empty).length +
  (keysOf q.notEmpty).length

/-- `optimizeQuery(table, query)`: complexity from the predicate count
and the presence of fuzzy predicates; an index hint for a single
equality filter on a field with a `presence` constraint; and the
default limit `complex ? 20 : 50` whenever `optimized.limit` is falsy
— so an explicit limit of 0 is silently replaced as if absent. -/
def optimizeQuery (table : BudibaseTable) (query : QueryInput) : OptimizedQuery :=
  let cc := match query.query with | none => 0 | some q => conditionCount q
  let hasFuzzy := match query.query with
    | some q => match q.fuzzy with | some fz => fz.length > 0 | none => false
    | none => false
  let complexity :=
    if cc > 5 || hasFuzzy then Complexity.complex
    else if cc > 2 then Complexity.moderate
    else Complexity.simple
  let useIndex :=
    match query.query with
    | some q =>
      match q.equal with
      | some eqs =>
        if eqs.length == 1 then
          match eqs.head? with
          | some (f, _) =>
            match alistGet table.schema f with
            | some fs =>
              match fs.constraints with
              | some c => if c.presence == some true then some f else none
              | none => none
            | none => none
          | none => none
        else none
      | none => none
    | none => none
  let limit :=
    match query.limit with
    | some l =>
      if l == 0 then some (if complexity == Complexity.complex then (20 : Int) else 50)
      else some l
    | none => some (if complexity == Complexity.complex then (20 : Int) else 50)
  { tableId := (query.tableId).getD table._id,
    query := query.query, sort := query.sort, limit := limit, bookmark := query.bookmark,
    hints := { useIndex := useIndex, estimatedRows := none, complexity := some complexity } }

/-- An error thrown by `SmartQueryBuilder`.  The source throws
`Error` objects with messages "Table ${tableId} not found in schema
registry" and "Invalid query: ${errors joined}". -/
inductive SQBError
  | tableNotFound (tableId : String)
  | invalidQuery (errors : List VError)
deriving DecidableEq, Repr

/-- `buildQuery(tableId, query)`: read-through schema lookup, then
validation (throwing with the full error list), then optimization. -/
def buildQuery (st : RegistryState) (tableId : String) (query : QueryInput) :
    Except SQBError OptimizedQuery × RegistryState :=
  let r := SchemaRegistry.getTableSchema st tableId
  match r.1 with
  | none => (Except.error (SQBError.tableNotFound tableId), r.2)
  | some table =>
    let validation := validateQuery table query
    if !validation.valid then (Except.error (SQBError.invalidQuery validation.errors), r.2)
    else (Except.ok (optimizeQuery table query), r.2)

/-- `pat` is a prefix of `s` (character lists). -/
def startsWithChars : List Char → List Char → Bool
  | [], _ => true
  | _ :: _, [] => false
  | a :: as, b :: bs => a == b && startsWithChars as bs

/-- `pat` occurs as a contiguous substring of `s` (character lists);
the empty pattern occurs everywhere, as with JavaScript `includes`. -/
def hasSubChars : List Char → List Char → Bool
  | pat, [] => pat.isEmpty
  | pat, c :: rest => startsWithChars pat (c :: rest) || hasSubChars pat rest

/-- JavaScript `s.includes(pat)`. -/
def containsSub (s pat : String) : Bool := hasSubChars pat.data s.data

/-- `String.prototype.toLowerCase` over the ASCII range (which covers
every token and field name in scope), character by character. -/
def jsToLower (s : String) : String := String.mk (s.data.map Char.toLower)

/-- `description.toLowerCase().split(/\s+/)`: split on maximal runs of
whitespace; a leading (trailing) run contributes an empty first (last)
token, and the empty string yields `[""]`, matching the JavaScript
regexp split.  The flag records whether we are inside a whitespace run
(the current token already emitted). -/
def wsSplitAux : List Char → List Char → Bool → List String
  | [], cur, false => [String.mk cur.reverse]
  | [], _, true => [""]
  | c :: rest, cur, false =>
    if c.isWhitespace then String.mk cur.reverse :: wsSplitAux rest [] true
    else wsSplitAux rest (c :: cur) false
  | c :: rest, cur, true =>
    if c.isWhitespace then wsSplitAux rest cur true
    else wsSplitAux rest [c] false

/-- The token list of a description (lower-cased, whitespace-split). -/
def tokensOf (description : String) : List String :=
  wsSplitAux (jsToLower description).data [] false

/-- The per-field body of `suggestQuery`'s loop: when any token
bidirectionally substring-matches the lower-cased field name, install
a filter stub for the field's type; each match replaces the whole
category sub-object with a singleton. -/
def suggestField (words : List String) (sug : QueryInput) (entry : String × BudibaseField) :
    QueryInput :=
  let fieldNameLower := jsToLower entry.1
  if words.any (fun w => containsSub fieldNameLower w || containsSub w fieldNameLower) then
    let q := sug.query.getD {}
    match entry.2.type with
    | FieldType.string =>
      { sug with query := some { q with string := some [(entry.1, "")] } }
    | FieldType.number =>
      { sug with query := some { q with range := some [(entry.1, { low := some 0, high := some 100 })] } }
    | FieldType.boolean =>
      { sug with query := some { q with equal := some [(entry.1, JVal.bool true)] } }
    | FieldType.datetime =>
      { sug with query := some { q with range := some [(entry.1, {})] } }
    | _ => sug
  else sug

/-- `suggestQuery(tableId, description)`: throws when the table is
unknown to the registry; otherwise builds filter stubs from
token/field-name substring matches and, when a token is exactly
"latest", "recent" or "newest", sets a descending sort on the literal
field name "createdAt" (no schema inspection). -/
def suggestQuery (st : RegistryState) (tableId : String) (description : String) :
    Except SQBError QueryInput × RegistryState :=
  let r := SchemaRegistry.getTableSchema st tableId
  match r.1 with
  | none => (Except.error (SQBError.tableNotFound tableId), r.2)
  | some table =>
    let words := tokensOf description
    let base : QueryInput := { query := some {}, limit := some 50 }
    let sug := table.schema.foldl (suggestField words) base
    let sug2 :=
      if words.any (fun w => ["latest", "recent", "newest"].contains w) then
        { sug with sort := some [("createdAt", SortDir.descending)] }
      else sug
    (Except.ok sug2, r.2)

end SmartQueryBuilder

/-- Spec-side definition, for comparison with the code: the name of
the first datetime-typed field of a schema ("the first datetime-typed
field found", §4.2 of the specification). -/
def specFirstDatetimeField (s : Schema) : Option String :=
  (s.find? (fun e => e.2.type == FieldType.datetime)).map (fun e => e.1)

/-! ## SyncOrchestrator (src: enhanced-client.ts, `EnhancedBudibaseClient`) -/

/-- `SyncOptions`; `onSchemaChange` carries the identity of the
callback function (the `EventEmitter` stores listeners in a list and
`emit` invokes every stored entry once, in registration order, so a
listener's identity and multiplicity are what matter). -/
structure SyncOptions where
  forceSync : Bool := false
  syncInterval : Option Nat := none
  onSchemaChange : Option Nat := none

/-- The remote collaborator (`getApplication`, `getTables`), as total
functions: remote failures are out of scope of the modelled claims. -/
structure RemoteEnv where
  getApplication : String → BudibaseApp
  getTables : String → List BudibaseTable

/-- The orchestrator's state: the owned registry, the `schemaChanged`
listener list of the registry's `EventEmitter`, and the auto-sync
interval map. -/
structure ClientState where
  registry : RegistryState
  listeners : List Nat
  syncIntervals : List (String × Nat)

namespace EnhancedBudibaseClient

/-- `syncApplication(appId, options)`: no-op when not forced and the
registry is fresh; otherwise fetch from the remote, sync the registry,
replace the auto-sync interval when requested, and — when
`onSchemaChange` is supplied — register it as one more `schemaChanged`
listener (never removing previous registrations). -/
def syncApplication (env : RemoteEnv) (st : ClientState) (appId : String)
    (options : SyncOptions) (now : Nat) : ClientState :=
  if !options.forceSync && !SchemaRegistry.needsSync st.registry appId now 3600000 then st
  else
    let app := env.getApplication appId
    let tables := env.getTables appId
    let r := SchemaRegistry.syncApplication st.registry app tables now
    let st1 := { st with registry := r.st }
    let st2 := match options.syncInterval with
      | some i =>
        if i > 0 then { st1 with syncIntervals := alistSet st1.syncIntervals appId i } else st1
      | none => st1
    match options.onSchemaChange with
    | some h => { st2 with listeners := st2.listeners ++ [h] }
    | none => st2

/-- How many times `emit('schemaChanged', …)` invokes the handler `h`:
once per registration of `h` in the listener list. -/
def emitInvocations (listeners : List Nat) (h : Nat) : Nat := listeners.count h

end EnhancedBudibaseClient

deriving instance DecidableEq for Except

/-! ## Concrete fixtures for the witnesses and counterexamples -/

/-- A string field. -/
def fldName : BudibaseField := { type := FieldType.string, name := "name" }

/-- A number field. -/
def fldAge : BudibaseField := { type := FieldType.number, name := "age" }

/-- The `age` field re-declared as a string (a single field-type change,
as in Scenario A of the specification). -/
def fldAgeStr : BudibaseField := { type := FieldType.string, name := "age" }

/-- A datetime field that is not named `createdAt`. -/
def fldOrderDate : BudibaseField := { type := FieldType.datetime, name := "orderDate" }

/-- A table with schema `{name: string, age: number}`. -/
def tblCustomers : BudibaseTable :=
  { _id := "t1", name := "Customers", type := "table",
    schema := [("name", fldName), ("age", fldAge)] }

/-- `tblCustomers` with its two fields enumerated in the opposite
order: structurally the same mapping. -/
def tblCustomersReordered : BudibaseTable :=
  { tblCustomers with schema := [("age", fldAge), ("name", fldName)] }

/-- `tblCustomers` with the type of `age` changed to string. -/
def tblCustomersTypeChanged : BudibaseTable :=
  { tblCustomers with schema := [("name", fldName), ("age", fldAgeStr)] }

/-- A table whose only datetime field is `orderDate` (no `createdAt`). -/
def tblOrders : BudibaseTable :=
  { _id := "t2", name := "Orders", type := "table", schema := [("orderDate", fldOrderDate)] }

/-- A concrete application. -/
def appOne : BudibaseApp :=
  { _id := "app1", name := "App One", status := "development",
    createdAt := "2024-01-01", updatedAt := "2024-01-02" }

/-- Registry state after syncing `appOne` with `tblCustomers`. -/
def stCustomers : RegistryState :=
  (SchemaRegistry.syncApplication initState appOne [tblCustomers] 0).st

/-- Registry state after syncing `appOne` with `tblOrders`. -/
def stOrders : RegistryState :=
  (SchemaRegistry.syncApplication initState appOne [tblOrders] 0).st

/-- A remote environment serving `appOne` with `tblCustomers`. -/
def envOne : RemoteEnv :=
  { getApplication := fun _ => appOne, getTables := fun _ => [tblCustomers] }

/-- A fresh orchestrator state. -/
def cst0 : ClientState := { registry := initState, listeners := [], syncIntervals := [] }

/-- The optimizer output for an explicit limit of 0 on `tblCustomers`. -/
def c9res : SmartQueryBuilder.OptimizedQuery :=
  SmartQueryBuilder.optimizeQuery tblCustomers { limit := some 0 }

/-! ## Claim theorems -/

/-- C1, counterexample: `syncApplication` for `appOne` with two fresh
tables, with the fourth database write (the second table's row upsert)
throwing.  The transaction fails and the database is rolled back to
empty, yet the schema cache already holds the first table (a key it
has populated, now diverging from the persisted store) and one
`schemaChanged` notification has already been emitted — so the
observable state is not "exactly as if the call had never happened". -/
theorem C1_counterexample :
    (SchemaRegistry.syncApplicationFaulty initState appOne [tblCustomers, tblOrders] 100 3).failed = true ∧
    (SchemaRegistry.syncApplicationFaulty initState appOne [tblCustomers, tblOrders] 100 3).st.tables = [] ∧
    alistGet (SchemaRegistry.syncApplicationFaulty initState appOne
        [tblCustomers, tblOrders] 100 3).st.schemaCache "t1" = some tblCustomers ∧
    (SchemaRegistry.syncApplicationFaulty initState appOne [tblCustomers, tblOrders] 100 3).notifs ≠ [] := by
  decide

/-- C2, counterexample: two structurally identical schemas (the same
field/definition pairs, enumerated in opposite orders) get different
checksums — `calculateChecksum` hashes the order-preserving
`JSON.stringify` text — and re-syncing the reordered schema therefore
appends a second `SchemaVersion` row. -/
theorem C2_counterexample :
    tblCustomersReordered.schema.Perm tblCustomers.schema ∧
    SchemaRegistry.calculateChecksum (serializeSchema tblCustomers.schema) ≠
      SchemaRegistry.calculateChecksum (serializeSchema tblCustomersReordered.schema) ∧
    versionsFor (SchemaRegistry.syncApplication stCustomers appOne
        [tblCustomersReordered] 1).st "t1" = [1, 2] := by
  decide

/-- C4, counterexample: after a first sync of `appOne`/`tblCustomers`
(one `SchemaVersion` row), re-syncing the identical table performs one
further write to the persisted store — the unconditional application
row upsert — not zero. -/
theorem C4_counterexample :
    versionsFor stCustomers "t1" = [1] ∧
    (SchemaRegistry.syncApplication stCustomers appOne [tblCustomers] 200).writes =
      [SchemaRegistry.Write.upsertApp "app1"] ∧
    (SchemaRegistry.syncApplication stCustomers appOne [tblCustomers] 200).writes ≠ [] := by
  decide

/-- C5, counterexample: `suggestQuery` against a table that was never
synced into the registry throws ("Table t1 not found in schema
registry") rather than returning an empty suggestion. -/
theorem C5_counterexample :
    (SmartQueryBuilder.suggestQuery initState "t1" "show latest orders").1 =
      Except.error (SmartQueryBuilder.SQBError.tableNotFound "t1") := by
  decide

/-- C6, counterexample: a present limit of 0 lies outside `[1, 1000]`,
yet `validateQuery` reports no error at all — `query.limit && …` is
skipped because 0 is falsy in JavaScript. -/
theorem C6_counterexample :
    ((0 : Int) < 1 ∨ (0 : Int) > 1000) ∧
    SmartQueryBuilder.validateQuery tblCustomers { limit := some 0 } =
      { valid := true, errors := [], warnings := [] } := by
  decide

/-- C7, counterexample: the two reserved-name sets differ by position.
`createdAt` (reserved per the claim) referenced inside a filter
category produces an unknown-field hard error, and `_rev` (reserved
per the claim) as a sort field produces an unknown-sort-field hard
error. -/
theorem C7_counterexample :
    VError.unknownField "createdAt" "Customers" ∈
      (SmartQueryBuilder.validateQuery tblCustomers
        { query := some { equal := some [("createdAt", JVal.bool true)] } }).errors ∧
    VError.unknownSortField "_rev" "Customers" ∈
      (SmartQueryBuilder.validateQuery tblCustomers
        { sort := some [("_rev", SortDir.ascending)] }).errors := by
  decide

/-- C8, counterexample: for a table whose first (and only)
datetime-typed field is `orderDate`, the description "latest" yields a
descending sort on the literal name `createdAt` — which is not even in
the schema — instead of on `orderDate`. -/
theorem C8_counterexample :
    (SmartQueryBuilder.suggestQuery stOrders "t2" "latest").1 =
      Except.ok { query := some {}, limit := some 50,
                  sort := some [("createdAt", SortDir.descending)] } ∧
    specFirstDatetimeField tblOrders.schema = some "orderDate" ∧
    alistGet tblOrders.schema "createdAt" = none := by
  decide

/-- C1, amended: atomicity holds for the persisted rows only.  When any
database write of `syncApplication` throws, `ROLLBACK` restores the
`applications`, `tables` and `schema_versions` rows exactly to the
pre-call state; the in-memory cache entries already written and the
`schemaChanged` events already emitted before the failure are not
undone (see the counterexample), so the cache can diverge from the
persisted store after a failed sync. -/
theorem C1_amended_db_rollback_only : ∀ (st : RegistryState) (app : BudibaseApp)
    (tables : List BudibaseTable) (now failAt : Nat),
    (SchemaRegistry.syncApplicationFaulty st app tables now failAt).failed = true →
    (SchemaRegistry.syncApplicationFaulty st app tables now failAt).st.apps = st.apps ∧
    (SchemaRegistry.syncApplicationFaulty st app tables now failAt).st.tables = st.tables ∧
    (SchemaRegistry.syncApplicationFaulty st app tables now failAt).st.versions = st.versions := by
  intro st app tables now failAt
  simp only [SchemaRegistry.syncApplicationFaulty]
  split
  · exact fun _ => ⟨rfl, rfl, rfl⟩
  · intro h
    simp at h

/-- C1, witness: the run of the counterexample (failure at write 3)
indeed leaves all three database tables at their initial value. -/
theorem C1_amended_db_rollback_only_witness :
    (SchemaRegistry.syncApplicationFaulty initState appOne [tblCustomers, tblOrders] 100 3).st.apps = initState.apps ∧
    (SchemaRegistry.syncApplicationFaulty initState appOne [tblCustomers, tblOrders] 100 3).st.tables = initState.tables ∧
    (SchemaRegistry.syncApplicationFaulty initState appOne [tblCustomers, tblOrders] 100 3).st.versions = initState.versions :=
  C1_amended_db_rollback_only initState appOne [tblCustomers, tblOrders] 100 3 (by decide)

/-- C2, amended: the checksum is computed over the order-preserving
`JSON.stringify` serialization, not a canonical one.  Schemas with
equal serialized text always hash equally; but a schema reordering
changes the text and (witnessed concretely) the checksum, so
re-syncing a reordered schema appends a new `SchemaVersion`; a single
field-type change likewise yields a different checksum and a new
version on the exhibited schemas. -/
theorem C2_amended_checksum_not_canonical :
    (∀ s t : Schema, serializeSchema s = serializeSchema t →
      SchemaRegistry.calculateChecksum (serializeSchema s) =
        SchemaRegistry.calculateChecksum (serializeSchema t)) ∧
    SchemaRegistry.calculateChecksum (serializeSchema tblCustomers.schema) ≠
      SchemaRegistry.calculateChecksum (serializeSchema tblCustomersTypeChanged.schema) ∧
    versionsFor (SchemaRegistry.syncApplication stCustomers appOne
        [tblCustomersTypeChanged] 1).st "t1" = [1, 2] := by
  refine ⟨fun s t h => by rw [h], by decide, by decide⟩

/-- C2, witness: the universal part applied at an equal serialization. -/
theorem C2_amended_checksum_not_canonical_witness :
    SchemaRegistry.calculateChecksum (serializeSchema tblCustomers.schema) =
      SchemaRegistry.calculateChecksum (serializeSchema tblCustomers.schema) :=
  C2_amended_checksum_not_canonical.1 tblCustomers.schema tblCustomers.schema rfl

/-- C5, amended: `suggestQuery` throws exactly in the never-synced
case: whenever `getTableSchema` does find the table, the heuristic
always returns a suggestion and never throws, for every description. -/
theorem C5_amended_no_throw_when_found : ∀ (st : RegistryState) (tid desc : String)
    (tbl : BudibaseTable),
    (SchemaRegistry.getTableSchema st tid).1 = some tbl →
    ∃ q, (SmartQueryBuilder.suggestQuery st tid desc).1 = Except.ok q := by
  intro st tid desc tbl h
  simp only [SmartQueryBuilder.suggestQuery]
  rw [h]
  exact ⟨_, rfl⟩

/-- C5, witness: a synced table yields a suggestion. -/
theorem C5_amended_no_throw_when_found_witness :
    ∃ q, (SmartQueryBuilder.suggestQuery stOrders "t2" "latest orders").1 = Except.ok q :=
  C5_amended_no_throw_when_found stOrders "t2" "latest orders" tblOrders (by decide)

/-- The per-field suggestion step never touches the sort property. -/
theorem suggestField_sort (ws : List String) (sug : QueryInput) (e : String × BudibaseField) :
    (SmartQueryBuilder.suggestField ws sug e).sort = sug.sort := by
  unfold SmartQueryBuilder.suggestField
  split <;> (dsimp only; split <;> rfl)

/-- The whole field loop of `suggestQuery` never touches the sort. -/
theorem suggestFold_sort (ws : List String) :
    ∀ (s : List (String × BudibaseField)) (sug : QueryInput),
    (s.foldl (SmartQueryBuilder.suggestField ws) sug).sort = sug.sort := by
  intro s
  induction s with
  | nil => intro sug; rfl
  | cons e s ih => intro sug; rw [List.foldl_cons, ih, suggestField_sort]

/-- C8, amended: when a token is "latest", "recent" or "newest",
`suggestQuery` sets a descending sort on the fixed literal field name
`createdAt`, never inspecting the schema for a datetime-typed field
(and no sort otherwise). -/
theorem C8_amended_sort_fixed_createdAt : ∀ (st : RegistryState) (tid desc : String)
    (tbl : BudibaseTable),
    (SchemaRegistry.getTableSchema st tid).1 = some tbl →
    ∃ q, (SmartQueryBuilder.suggestQuery st tid desc).1 = Except.ok q ∧
      q.sort = (if (SmartQueryBuilder.tokensOf desc).any
          (fun w => ["latest", "recent", "newest"].contains w)
        then some [("createdAt", SortDir.descending)] else none) := by
  intro st tid desc tbl h
  simp only [SmartQueryBuilder.suggestQuery]
  rw [h]
  refine ⟨_, rfl, ?_⟩
  split
  · rfl
  · rw [suggestFold_sort]

/-- C8, witness: the fixed sort at the counterexample's inputs. -/
theorem C8_amended_sort_fixed_createdAt_witness :
    ∃ q, (SmartQueryBuilder.suggestQuery stOrders "t2" "latest").1 = Except.ok q ∧
      q.sort = (if (SmartQueryBuilder.tokensOf "latest").any
          (fun w => ["latest", "recent", "newest"].contains w)
        then some [("createdAt", SortDir.descending)] else none) :=
  C8_amended_sort_fixed_createdAt stOrders "t2" "latest" tblOrders (by decide)

/-- `validateQuery` cannot distinguish an explicit limit of 0 from an
absent limit (0 is falsy in the source's `query.limit && …` guard). -/
theorem validateQuery_limit_zero (tbl : BudibaseTable) (q : QueryInput) :
    SmartQueryBuilder.validateQuery tbl { q with limit := some 0 } =
      SmartQueryBuilder.validateQuery tbl { q with limit := none } := by
  simp [SmartQueryBuilder.validateQuery, SmartQueryBuilder.fieldErrorsOf,
    SmartQueryBuilder.rangeErrorsOf, SmartQueryBuilder.sortErrorsOf,
    SmartQueryBuilder.limitErrorsOf, SmartQueryBuilder.warningsOf]

/-- `optimizeQuery` cannot distinguish an explicit limit of 0 from an
absent limit (0 is falsy in the source's `!optimized.limit` guard). -/
theorem optimizeQuery_limit_zero (tbl : BudibaseTable) (q : QueryInput) :
    SmartQueryBuilder.optimizeQuery tbl { q with limit := some 0 } =
      SmartQueryBuilder.optimizeQuery tbl { q with limit := none } := by
  simp [SmartQueryBuilder.optimizeQuery]

/-- With a falsy limit, the optimizer installs the complexity-derived
default: 20 for a complex query, 50 otherwise. -/
theorem optimizeQuery_limit_default (tbl : BudibaseTable) (q : QueryInput)
    (h : q.limit = some 0 ∨ q.limit = none) :
    (SmartQueryBuilder.optimizeQuery tbl q).limit =
      some (if (SmartQueryBuilder.optimizeQuery tbl q).hints.complexity =
              some SmartQueryBuilder.Complexity.complex then 20 else 50) := by
  unfold SmartQueryBuilder.optimizeQuery
  rcases h with h | h <;> rw [h] <;> dsimp only <;>
    generalize (if _ > 5 || _ then SmartQueryBuilder.Complexity.complex
      else if _ > 2 then SmartQueryBuilder.Complexity.moderate
      else SmartQueryBuilder.Complexity.simple) = c <;>
    cases c <;> simp

/-- C9: an explicit limit of 0 is neither rejected nor preserved.
`buildQuery` on a query with limit 0 behaves exactly as on the same
query with no limit (so validation cannot fail because of the 0), and
any successful result carries the complexity-derived default limit —
20 for a complex query, 50 otherwise. -/
theorem C9_limit_zero_replaced_by_default : ∀ (st : RegistryState) (tid : String)
    (q : QueryInput),
    SmartQueryBuilder.buildQuery st tid { q with limit := some 0 } =
      SmartQueryBuilder.buildQuery st tid { q with limit := none } ∧
    (∀ res, (SmartQueryBuilder.buildQuery st tid { q with limit := some 0 }).1 = Except.ok res →
      res.limit = some (if res.hints.complexity = some SmartQueryBuilder.Complexity.complex
        then 20 else 50)) := by
  intro st tid q
  constructor
  · simp only [SmartQueryBuilder.buildQuery, validateQuery_limit_zero, optimizeQuery_limit_zero]
  · intro res h
    simp only [SmartQueryBuilder.buildQuery] at h
    rcases hg : (SchemaRegistry.getTableSchema st tid).1 with _ | tbl <;>
      rw [hg] at h <;> dsimp only at h
    · simp at h
    · by_cases hv : (SmartQueryBuilder.validateQuery tbl { q with limit := some 0 }).valid
      · rw [if_neg (by simp [hv])] at h
        dsimp only at h
        injection h with h2
        subst h2
        exact optimizeQuery_limit_default tbl _ (Or.inl rfl)
      · rw [if_pos (by simp [hv])] at h
        dsimp only at h
        exact absurd h (by simp)

/-- C9, witness: on the synced customers table, a limit of 0 comes
back as the simple-complexity default of 50. -/
theorem C9_limit_zero_replaced_by_default_witness :
    c9res.limit = some (if c9res.hints.complexity = some SmartQueryBuilder.Complexity.complex
      then 20 else 50) :=
  (C9_limit_zero_replaced_by_default stCustomers "t1" {}).2 c9res (by decide)

/-- A `syncApplication` orchestrator call that proceeds past the
freshness check and supplies a handler appends exactly that handler to
the listener list. -/
theorem client_sync_listeners (env : RemoteEnv) (st : ClientState) (appId : String)
    (opts : SyncOptions) (now : Nat) (h : Nat)
    (hh : opts.onSchemaChange = some h)
    (hp : opts.forceSync = true ∨
      SchemaRegistry.needsSync st.registry appId now 3600000 = true) :
    (EnhancedBudibaseClient.syncApplication env st appId opts now).listeners =
      st.listeners ++ [h] := by
  have hcond : (!opts.forceSync && !SchemaRegistry.needsSync st.registry appId now 3600000) = false := by
    rcases hp with hp | hp <;> simp [hp]
  unfold EnhancedBudibaseClient.syncApplication
  rw [hcond]
  simp only [Bool.false_eq_true, if_false]
  rcases hsi : opts.syncInterval with _ | i <;> simp only [hsi, hh]
  split <;> rfl

/-- C10: every orchestrator `syncApplication` call that proceeds past
the freshness check and supplies an `onSchemaChange` handler registers
it as one more `schemaChanged` subscriber without removing earlier
registrations, so n such (forced) calls with the same handler make a
single schema change invoke the handler n more times. -/
theorem C10_schema_change_listener_accumulates :
    ∀ (env : RemoteEnv) (appId : String) (opts : SyncOptions) (h : Nat),
    opts.onSchemaChange = some h →
    (∀ (st : ClientState) (now : Nat),
      opts.forceSync = true ∨ SchemaRegistry.needsSync st.registry appId now 3600000 = true →
      (EnhancedBudibaseClient.syncApplication env st appId opts now).listeners =
        st.listeners ++ [h]) ∧
    (opts.forceSync = true → ∀ (st : ClientState) (now : Nat) (n : Nat),
      EnhancedBudibaseClient.emitInvocations
        (((fun s => EnhancedBudibaseClient.syncApplication env s appId opts now)^[n] st).listeners) h =
      EnhancedBudibaseClient.emitInvocations st.listeners h + n) := by
  intro env appId opts h hh
  constructor
  · intro st now hp
    exact client_sync_listeners env st appId opts now h hh hp
  · intro hf st now n
    induction n generalizing st with
    | zero => rfl
    | succ n ih =>
      rw [Function.iterate_succ_apply]
      rw [ih]
      unfold EnhancedBudibaseClient.emitInvocations
      rw [client_sync_listeners env st appId opts now h hh (Or.inl hf)]
      simp [List.count_append]
      omega

/-- C10, witness: two forced calls with handler 7 leave it registered
twice, so one schema change invokes it twice. -/
theorem C10_schema_change_listener_accumulates_witness :
    EnhancedBudibaseClient.emitInvocations
      (((fun s => EnhancedBudibaseClient.syncApplication envOne s "app1"
          { forceSync := true, onSchemaChange := some 7 } 5)^[2] cst0).listeners) 7 =
    EnhancedBudibaseClient.emitInvocations cst0.listeners 7 + 2 :=
  (C10_schema_change_listener_accumulates envOne "app1"
    { forceSync := true, onSchemaChange := some 7 } 7 rfl).2 rfl cst0 5 2

/-- Membership through the `Set`-style fold underlying `dedupFirst`. -/
theorem mem_setFold : ∀ (l acc : List String) (x : String),
    x ∈ l.foldl setInsert acc ↔ x ∈ acc ∨ x ∈ l := by
  intro l
  induction l with
  | nil => simp
  | cons a l ih =>
    intro acc x
    rw [List.foldl_cons, ih]
    unfold setInsert
    split
    next hc =>
      have ha : a ∈ acc := List.elem_iff.mp hc
      constructor
      · tauto
      · rintro (h | h)
        · exact Or.inl h
        · rcases List.mem_cons.mp h with rfl | h
          · exact Or.inl ha
          · exact Or.inr h
    next =>
      simp only [List.mem_append, List.mem_singleton, List.mem_cons]
      tauto

/-- Deduplication preserves membership. -/
theorem mem_dedupFirst (l : List String) (x : String) :
    x ∈ dedupFirst l ↔ x ∈ l := by
  unfold dedupFirst
  rw [mem_setFold]
  simp

/-- The unknown-field errors never contain the limit error. -/
theorem limit_notmem_fieldErrors (tbl : BudibaseTable) (q : QueryInput) :
    VError.limitOutOfRange ∉ SmartQueryBuilder.fieldErrorsOf tbl q := by
  rcases hq : q.query with _ | qq <;> simp only [SmartQueryBuilder.fieldErrorsOf, hq]
  · simp
  · simp only [List.mem_filterMap]
    rintro ⟨a, -, h⟩
    revert h
    split <;> simp

/-- The range-type errors never contain the limit error. -/
theorem limit_notmem_rangeErrors (tbl : BudibaseTable) (q : QueryInput) :
    VError.limitOutOfRange ∉ SmartQueryBuilder.rangeErrorsOf tbl q := by
  rcases hq : q.query with _ | qq <;> simp only [SmartQueryBuilder.rangeErrorsOf, hq]
  · simp
  · rcases hr : qq.range with _ | rs <;> simp only [hr]
    · simp
    · simp only [List.mem_filterMap]
      rintro ⟨a, -, h⟩
      revert h
      split
      · split <;> simp
      · simp

/-- The sort-field errors never contain the limit error. -/
theorem limit_notmem_sortErrors (tbl : BudibaseTable) (q : QueryInput) :
    VError.limitOutOfRange ∉ SmartQueryBuilder.sortErrorsOf tbl q := by
  rcases hs : q.sort with _ | s <;> simp only [SmartQueryBuilder.sortErrorsOf, hs]
  · simp
  · simp only [List.mem_filterMap]
    rintro ⟨a, -, h⟩
    revert h
    split <;> simp

/-- C6, amended: for a present limit `l`, `validateQuery` reports the
limit hard error exactly when `l` is truthy (nonzero) and outside
`[1, 1000]`; a present limit of 0, although outside the interval,
produces no error because 0 is falsy in the source's guard. -/
theorem C6_amended_limit_check_truthy : ∀ (tbl : BudibaseTable) (q : QueryInput) (l : Int),
    q.limit = some l →
    (VError.limitOutOfRange ∈ (SmartQueryBuilder.validateQuery tbl q).errors ↔
      l ≠ 0 ∧ (l < 1 ∨ l > 1000)) := by
  intro tbl q l hl
  simp only [SmartQueryBuilder.validateQuery, List.mem_append]
  constructor
  · rintro (((h | h) | h) | h)
    · exact absurd h (limit_notmem_fieldErrors tbl q)
    · exact absurd h (limit_notmem_rangeErrors tbl q)
    · exact absurd h (limit_notmem_sortErrors tbl q)
    · revert h
      simp only [SmartQueryBuilder.limitErrorsOf, hl]
      split
      next hc =>
        intro _
        simpa [bne_iff_ne, decide_eq_true_eq] using hc
      next => simp
  · intro hc
    refine Or.inr ?_
    simp only [SmartQueryBuilder.limitErrorsOf, hl]
    rw [if_pos (by simp [bne_iff_ne, decide_eq_true_eq]; tauto)]
    simp

/-- The range-type errors never contain an unknown-field error. -/
theorem unknownField_notmem_rangeErrors (tbl : BudibaseTable) (q : QueryInput) (f t : String) :
    VError.unknownField f t ∉ SmartQueryBuilder.rangeErrorsOf tbl q := by
  rcases hq : q.query with _ | qq <;> simp only [SmartQueryBuilder.rangeErrorsOf, hq]
  · simp
  · rcases hr : qq.range with _ | rs <;> simp only [hr]
    · simp
    · simp only [List.mem_filterMap]
      rintro ⟨a, -, h⟩
      revert h
      split
      · split <;> simp
      · simp

/-- The sort-field errors never contain an unknown-field error. -/
theorem unknownField_notmem_sortErrors (tbl : BudibaseTable) (q : QueryInput) (f t : String) :
    VError.unknownField f t ∉ SmartQueryBuilder.sortErrorsOf tbl q := by
  rcases hs : q.sort with _ | s <;> simp only [SmartQueryBuilder.sortErrorsOf, hs]
  · simp
  · simp only [List.mem_filterMap]
    rintro ⟨a, -, h⟩
    revert h
    split <;> simp

/-- The limit errors never contain an unknown-field error. -/
theorem unknownField_notmem_limitErrors (q : QueryInput) (f t : String) :
    VError.unknownField f t ∉ SmartQueryBuilder.limitErrorsOf q := by
  rcases hl : q.limit with _ | l <;> simp only [SmartQueryBuilder.limitErrorsOf, hl]
  · simp
  · split <;> simp

/-- The unknown-field errors never contain a sort-field error. -/
theorem unknownSortField_notmem_fieldErrors (tbl : BudibaseTable) (q : QueryInput) (f t : String) :
    VError.unknownSortField f t ∉ SmartQueryBuilder.fieldErrorsOf tbl q := by
  rcases hq : q.query with _ | qq <;> simp only [SmartQueryBuilder.fieldErrorsOf, hq]
  · simp
  · simp only [List.mem_filterMap]
    rintro ⟨a, -, h⟩
    revert h
    split <;> simp

/-- The range-type errors never contain a sort-field error. -/
theorem unknownSortField_notmem_rangeErrors (tbl : BudibaseTable) (q : QueryInput) (f t : String) :
    VError.unknownSortField f t ∉ SmartQueryBuilder.rangeErrorsOf tbl q := by
  rcases hq : q.query with _ | qq <;> simp only [SmartQueryBuilder.rangeErrorsOf, hq]
  · simp
  · rcases hr : qq.range with _ | rs <;> simp only [hr]
    · simp
    · simp only [List.mem_filterMap]
      rintro ⟨a, -, h⟩
      revert h
      split
      · split <;> simp
      · simp

/-- The limit errors never contain a sort-field error. -/
theorem unknownSortField_notmem_limitErrors (q : QueryInput) (f t : String) :
    VError.unknownSortField f t ∉ SmartQueryBuilder.limitErrorsOf q := by
  rcases hl : q.limit with _ | l <;> simp only [SmartQueryBuilder.limitErrorsOf, hl]
  · simp
  · split <;> simp

/-- Exact characterization of the unknown-field errors. -/
theorem mem_fieldErrors_iff (tbl : BudibaseTable) (q : QueryInput) (f : String) :
    VError.unknownField f tbl.name ∈ SmartQueryBuilder.fieldErrorsOf tbl q ↔
      ∃ qq, q.query = some qq ∧ f ∈ queryFieldEntries qq ∧
        alistGet tbl.schema f = none ∧ f ∉ ["_id", "_rev", "tableId"] := by
  rcases hq : q.query with _ | qq <;> simp only [SmartQueryBuilder.fieldErrorsOf, hq]
  · simp
  · simp only [Option.some.injEq, List.mem_filterMap]
    constructor
    · rintro ⟨a, ha, h⟩
      revert h
      split
      next hcond =>
        intro h
        simp only [Option.some.injEq, VError.unknownField.injEq] at h
        obtain ⟨h1, -⟩ := h
        subst h1
        simp only [Bool.and_eq_true, Option.isNone_iff_eq_none, Bool.not_eq_true'] at hcond
        refine ⟨qq, rfl, (mem_dedupFirst _ _).mp ha, hcond.1, fun hmem => ?_⟩
        exact (Bool.eq_false_iff.mp hcond.2) (List.elem_iff.mpr hmem)
      next => intro h; exact absurd h (by simp)
    · rintro ⟨qq', hqq, hmem, hnone, hnotin⟩
      subst hqq
      have hcf : (["_id", "_rev", "tableId"].contains f) = false :=
        Bool.eq_false_iff.mpr (fun hc => hnotin (List.elem_iff.mp hc))
      refine ⟨f, (mem_dedupFirst _ _).mpr hmem, ?_⟩
      rw [if_pos (by rw [hnone, hcf]; rfl)]

/-- Exact characterization of the unknown-sort-field errors. -/
theorem mem_sortErrors_iff (tbl : BudibaseTable) (q : QueryInput) (f : String) :
    VError.unknownSortField f tbl.name ∈ SmartQueryBuilder.sortErrorsOf tbl q ↔
      ∃ s, q.sort = some s ∧ f ∈ s.map (fun p => p.1) ∧
        alistGet tbl.schema f = none ∧ f ∉ ["_id", "createdAt", "updatedAt"] := by
  rcases hs : q.sort with _ | s <;> simp only [SmartQueryBuilder.sortErrorsOf, hs]
  · simp
  · simp only [Option.some.injEq, List.mem_filterMap]
    constructor
    · rintro ⟨a, ha, h⟩
      revert h
      split
      next hcond =>
        intro h
        simp only [Option.some.injEq, VError.unknownSortField.injEq] at h
        obtain ⟨h1, -⟩ := h
        subst h1
        simp only [Bool.and_eq_true, Option.isNone_iff_eq_none, Bool.not_eq_true'] at hcond
        refine ⟨s, rfl, List.mem_map.mpr ⟨a, ha, rfl⟩, hcond.1, fun hmem => ?_⟩
        exact (Bool.eq_false_iff.mp hcond.2) (List.elem_iff.mpr hmem)
      next => intro h; exact absurd h (by simp)
    · rintro ⟨s', hss, hmem, hnone, hnotin⟩
      subst hss
      rcases List.mem_map.mp hmem with ⟨p, hp, hpf⟩
      have hcf : (["_id", "createdAt", "updatedAt"].contains f) = false :=
        Bool.eq_false_iff.mpr (fun hc => hnotin (List.elem_iff.mp hc))
      refine ⟨p, hp, ?_⟩
      rw [hpf, if_pos (by rw [hnone, hcf]; rfl)]

/-- C7, amended: there is no single reserved set.  An unknown-field
hard error (naming the field and the table) occurs exactly for a
referenced filter field absent from the schema and outside the
filter-side reserved set `_id`, `_rev`, `tableId`; an unknown
sort-field hard error occurs exactly for a sort key absent from the
schema and outside the distinct sort-side reserved set `_id`,
`createdAt`, `updatedAt`. -/
theorem C7_amended_two_reserved_sets : ∀ (tbl : BudibaseTable) (q : QueryInput) (f : String),
    (VError.unknownField f tbl.name ∈ (SmartQueryBuilder.validateQuery tbl q).errors ↔
      ∃ qq, q.query = some qq ∧ f ∈ queryFieldEntries qq ∧
        alistGet tbl.schema f = none ∧ f ∉ ["_id", "_rev", "tableId"]) ∧
    (VError.unknownSortField f tbl.name ∈ (SmartQueryBuilder.validateQuery tbl q).errors ↔
      ∃ s, q.sort = some s ∧ f ∈ s.map (fun p => p.1) ∧
        alistGet tbl.schema f = none ∧ f ∉ ["_id", "createdAt", "updatedAt"]) := by
  intro tbl q f
  constructor
  · rw [← mem_fieldErrors_iff]
    simp only [SmartQueryBuilder.validateQuery, List.mem_append]
    constructor
    · rintro (((h | h) | h) | h)
      · exact h
      · exact absurd h (unknownField_notmem_rangeErrors tbl q f tbl.name)
      · exact absurd h (unknownField_notmem_sortErrors tbl q f tbl.name)
      · exact absurd h (unknownField_notmem_limitErrors q f tbl.name)
    · intro h; exact Or.inl (Or.inl (Or.inl h))
  · rw [← mem_sortErrors_iff]
    simp only [SmartQueryBuilder.validateQuery, List.mem_append]
    constructor
    · rintro (((h | h) | h) | h)
      · exact absurd h (unknownSortField_notmem_fieldErrors tbl q f tbl.name)
      · exact absurd h (unknownSortField_notmem_rangeErrors tbl q f tbl.name)
      · exact h
      · exact absurd h (unknownSortField_notmem_limitErrors q f tbl.name)
    · intro h; exact Or.inl (Or.inr h)

/-- C6, witness: a limit of 2000 is reported out of range. -/
theorem C6_amended_limit_check_truthy_witness :
    VError.limitOutOfRange ∈
      (SmartQueryBuilder.validateQuery tblCustomers { limit := some 2000 }).errors :=
  (C6_amended_limit_check_truthy tblCustomers { limit := some 2000 } 2000 rfl).mpr (by decide)

/-- The per-table version view of an appended row. -/
theorem versionsIn_append (vs : List VersionRow) (v : VersionRow) (tid : String) :
    versionsIn (vs ++ [v]) tid =
      versionsIn vs tid ++ (if v.table_id == tid then [v.version] else []) := by
  simp only [versionsIn, List.filter_append]
  split
  next h => simp [List.filter_cons, h]
  next h => simp [List.filter_cons, h]

/-- The per-table version view of a cons. -/
theorem versionsIn_cons (v : VersionRow) (vs : List VersionRow) (tid : String) :
    versionsIn (v :: vs) tid =
      (if v.table_id == tid then [v.version] else []) ++ versionsIn vs tid := by
  simp only [versionsIn, List.filter_cons]
  split <;> simp

/-- `maxVersion` is the max over the per-table version view. -/
theorem maxVersion_eq_foldl : ∀ (vs : List VersionRow) (tid : String) (a : Nat),
    vs.foldl (fun acc v => if v.table_id == tid then max acc v.version else acc) a =
    (versionsIn vs tid).foldl max a := by
  intro vs tid
  induction vs with
  | nil => intro a; rfl
  | cons v vs ih =>
    intro a
    simp only [List.foldl_cons, versionsIn_cons]
    by_cases h : (v.table_id == tid) = true
    · rw [if_pos h, if_pos h, List.singleton_append, List.foldl_cons]
      exact ih _
    · rw [if_neg h, if_neg h, List.nil_append]
      exact ih _

/-- The max of `1, …, n` (paired with a start value). -/
theorem foldl_max_range' : ∀ (n : Nat) (a : Nat), (List.range' 1 n).foldl max a = max a n := by
  intro n
  induction n with
  | zero => intro a; simp
  | succ n ih =>
    intro a
    rw [List.range'_concat, List.foldl_append, ih]
    simp only [List.foldl_cons, List.foldl_nil]
    omega

/-- Appending version `max + 1` preserves the sequence invariant. -/
theorem seqList_append_next (vs : List VersionRow) (h : seqList vs) (v : VersionRow)
    (hv : v.version = SchemaRegistry.maxVersion vs v.table_id + 1) :
    seqList (vs ++ [v]) := by
  intro tid
  rw [versionsIn_append]
  by_cases ht : (v.table_id == tid)
  · rw [if_pos ht]
    have htid : v.table_id = tid := by simpa using ht
    set n := (versionsIn vs tid).length with hn
    have hseq : versionsIn vs tid = List.range' 1 n := h tid
    have hmax : SchemaRegistry.maxVersion vs tid = n := by
      unfold SchemaRegistry.maxVersion
      rw [maxVersion_eq_foldl, hseq, foldl_max_range']
      omega
    rw [hv, htid, hmax, hseq]
    rw [List.length_append, List.length_range']
    simp [List.range'_concat, Nat.add_comm]
  · rw [if_neg ht]
    simp only [List.append_nil]
    exact h tid

/-- One table step of the sync loop either leaves `schema_versions`
unchanged or appends exactly the row numbered `getNextVersion`. -/
theorem versionsIn_syncTable (appId : String) (acc : SchemaRegistry.SyncStep) (t : BudibaseTable) :
    (SchemaRegistry.syncTable appId acc t).st.versions = acc.st.versions ∨
    (SchemaRegistry.syncTable appId acc t).st.versions =
      acc.st.versions ++
        [({ app_id := appId, table_id := t._id,
            version := SchemaRegistry.maxVersion acc.st.versions t._id + 1,
            schema := serializeSchema t.schema,
            checksum := SchemaRegistry.calculateChecksum (serializeSchema t.schema) } :
          VersionRow)] := by
  unfold SchemaRegistry.syncTable
  dsimp only
  split
  · right; rfl
  · left; rfl

/-- The sync loop preserves the sequence invariant and only appends. -/
theorem seqList_syncFold (appId : String) : ∀ (ts : List BudibaseTable)
    (acc : SchemaRegistry.SyncStep),
    seqList acc.st.versions →
    seqList ((ts.foldl (SchemaRegistry.syncTable appId) acc).st.versions) ∧
    ∃ tail, (ts.foldl (SchemaRegistry.syncTable appId) acc).st.versions =
      acc.st.versions ++ tail := by
  intro ts
  induction ts with
  | nil => intro acc h; exact ⟨h, [], (List.append_nil _).symm⟩
  | cons t ts ih =>
    intro acc h
    rw [List.foldl_cons]
    rcases versionsIn_syncTable appId acc t with hv | hv
    · have h1 : seqList (SchemaRegistry.syncTable appId acc t).st.versions := hv ▸ h
      obtain ⟨hs, tail, htail⟩ := ih _ h1
      exact ⟨hs, tail, by rw [htail, hv]⟩
    · have h1 : seqList (SchemaRegistry.syncTable appId acc t).st.versions := by
        rw [hv]; exact seqList_append_next _ h _ rfl
      obtain ⟨hs, tail, htail⟩ := ih _ h1
      rw [hv, List.append_assoc] at htail
      exact ⟨hs, _, htail⟩

/-- `syncApplication` preserves the sequence invariant and only appends. -/
theorem seqList_syncApplication (st : RegistryState) (app : BudibaseApp)
    (tables : List BudibaseTable) (now : Nat) (h : seqList st.versions) :
    seqList (SchemaRegistry.syncApplication st app tables now).st.versions ∧
    ∃ tail, (SchemaRegistry.syncApplication st app tables now).st.versions =
      st.versions ++ tail := by
  unfold SchemaRegistry.syncApplication
  dsimp only
  exact seqList_syncFold app._id tables _ h

/-- The read-through load never touches `schema_versions`. -/
theorem versions_getTableSchema (st : RegistryState) (tid : String) :
    (SchemaRegistry.getTableSchema st tid).2.versions = st.versions := by
  unfold SchemaRegistry.getTableSchema
  split
  · rfl
  · split
    · rfl
    · rfl

/-- Every registry operation preserves the invariant and only appends. -/
theorem seqList_applyOp (st : RegistryState) (op : RegistryOp) (h : seqList st.versions) :
    seqList (applyOp st op).versions ∧ ∃ tail, (applyOp st op).versions = st.versions ++ tail := by
  cases op with
  | sync app tables now => exact seqList_syncApplication st app tables now h
  | getSchema tid =>
    simp only [applyOp]
    rw [versions_getTableSchema]
    exact ⟨h, [], (List.append_nil _).symm⟩
  | listTables a => exact ⟨h, [], (List.append_nil _).symm⟩
  | history tid => exact ⟨h, [], (List.append_nil _).symm⟩
  | staleCheck a n m => exact ⟨h, [], (List.append_nil _).symm⟩
  | close => exact ⟨h, [], (List.append_nil _).symm⟩

/-- Operation sequences preserve the invariant and only append. -/
theorem seqList_foldOps : ∀ (ops : List RegistryOp) (st : RegistryState), seqList st.versions →
    seqList ((ops.foldl applyOp st).versions) ∧
    ∃ tail, (ops.foldl applyOp st).versions = st.versions ++ tail := by
  intro ops
  induction ops with
  | nil => intro st h; exact ⟨h, [], (List.append_nil _).symm⟩
  | cons op ops ih =>
    intro st h
    rw [List.foldl_cons]
    obtain ⟨h1, t1, ht1⟩ := seqList_applyOp st op h
    obtain ⟨h2, t2, ht2⟩ := ih _ h1
    exact ⟨h2, t1 ++ t2, by rw [ht2, ht1, List.append_assoc]⟩

/-- A fresh store satisfies the invariant. -/
theorem seqList_init : seqList initState.versions := fun _ => rfl

/-- C3: after any sequence of successful registry operations from a
fresh store, every table's stored `SchemaVersion` numbers are exactly
the unbroken sequence `1, 2, …, N` (no gaps, no repeats), and the
`schema_versions` rows written so far are never updated or deleted by
any further operation — any extension of the sequence only appends. -/
theorem C3_versions_sequential_append_only : ∀ ops : List RegistryOp,
    (∀ tid, versionsFor (runOps ops) tid =
      List.range' 1 (versionsFor (runOps ops) tid).length) ∧
    (∀ more, ∃ tail, (runOps (ops ++ more)).versions = (runOps ops).versions ++ tail) := by
  intro ops
  have h := seqList_foldOps ops initState seqList_init
  refine ⟨h.1, fun more => ?_⟩
  rw [runOps, List.foldl_append]
  exact (seqList_foldOps more _ h.1).2

/-- `find?` on a cons, as an `if` on the key comparison. -/
theorem findTableRow_cons (r : TableRow) (rs : List TableRow) (tid : String) :
    findTableRow (r :: rs) tid =
      (if (r.table_id == tid) = true then some r else findTableRow rs tid) := by
  unfold findTableRow
  rw [List.find?_cons]
  by_cases h : (r.table_id == tid) = true
  · rw [if_pos h]
    simp only [h]
  · rw [if_neg h]
    simp only [Bool.eq_false_iff.mpr h]

/-- The conflict-update path of the upsert preserves other tables' rows. -/
theorem findTableRow_map_upd (t : BudibaseTable) (tid : String)
    (h : (t._id == tid) = false) :
    ∀ rows : List TableRow,
    findTableRow (rows.map (fun r => if r.table_id == t._id then
      { r with name := t.name, type := t.type, primary_display := t.primaryDisplay,
               schema := t.schema } else r)) tid = findTableRow rows tid := by
  intro rows
  induction rows with
  | nil => rfl
  | cons r rs ih =>
    simp only [List.map_cons]
    by_cases hr : (r.table_id == t._id) = true
    · rw [if_pos hr]
      have hrt : r.table_id = t._id := by simpa using hr
      have hne : (r.table_id == tid) = false := by rw [hrt]; exact h
      rw [findTableRow_cons, findTableRow_cons]
      simp only [hne]
      rw [if_neg Bool.false_ne_true, if_neg Bool.false_ne_true]
      exact ih
    · rw [if_neg hr, findTableRow_cons, findTableRow_cons]
      by_cases h2 : (r.table_id == tid) = true
      · rw [if_pos h2, if_pos h2]
      · rw [if_neg h2, if_neg h2]
        exact ih

/-- Row lookup through an appended row. -/
theorem findTableRow_append_single (rows : List TableRow) (nr : TableRow) (tid : String) :
    findTableRow (rows ++ [nr]) tid =
      ((findTableRow rows tid).or (findTableRow [nr] tid)) := by
  unfold findTableRow
  rw [List.find?_append]

/-- Upserting one table leaves every other table's row untouched. -/
theorem upsertTableRow_find_other (rows : List TableRow) (appId : String) (t : BudibaseTable)
    (tid : String) (h : (t._id == tid) = false) :
    findTableRow (upsertTableRow rows appId t) tid = findTableRow rows tid := by
  unfold upsertTableRow
  split
  · exact findTableRow_map_upd t tid h rows
  · rw [findTableRow_append_single, findTableRow_cons]
    simp only [h]
    rw [if_neg Bool.false_ne_true]
    exact Option.or_none

/-- When a row with the upserted id exists, the conflict update makes
the first such row carry the incoming schema. -/
theorem findTableRow_map_upd_self (t : BudibaseTable) :
    ∀ rows : List TableRow, rows.any (fun r => r.table_id == t._id) = true →
    ∃ row, findTableRow (rows.map (fun r => if r.table_id == t._id then
      { r with name := t.name, type := t.type, primary_display := t.primaryDisplay,
               schema := t.schema } else r)) t._id = some row ∧ row.schema = t.schema := by
  intro rows
  induction rows with
  | nil => intro h; simp at h
  | cons r rs ih =>
    intro hany
    simp only [List.map_cons]
    by_cases hr : (r.table_id == t._id) = true
    · rw [if_pos hr, findTableRow_cons]
      dsimp only
      rw [if_pos hr]
      exact ⟨_, rfl, rfl⟩
    · rw [if_neg hr, findTableRow_cons, if_neg hr]
      refine ih ?_
      rcases List.any_eq_true.mp hany with ⟨x, hx, hpx⟩
      rcases List.mem_cons.mp hx with rfl | hx2
      · exact absurd hpx hr
      · exact List.any_eq_true.mpr ⟨x, hx2, hpx⟩

/-- After an upsert, the looked-up row for the upserted id carries the
incoming schema. -/
theorem upsertTableRow_find_self (rows : List TableRow) (appId : String) (t : BudibaseTable) :
    ∃ row, findTableRow (upsertTableRow rows appId t) t._id = some row ∧
      row.schema = t.schema := by
  unfold upsertTableRow
  split
  next hany => exact findTableRow_map_upd_self t rows hany
  next hany =>
    have hnone : findTableRow rows t._id = none := by
      unfold findTableRow
      rw [List.find?_eq_none]
      intro r hrmem
      by_contra hc
      exact hany (List.any_eq_true.mpr ⟨r, hrmem, by simpa using hc⟩)
    rw [findTableRow_append_single, hnone, Option.none_or, findTableRow_cons]
    dsimp only
    rw [if_pos (beq_self_eq_true t._id)]
    exact ⟨_, rfl, rfl⟩

/-- One sync-loop step leaves other tables' rows untouched. -/
theorem syncTable_tables_other (appId : String) (acc : SchemaRegistry.SyncStep)
    (t : BudibaseTable) (tid : String) (h : (t._id == tid) = false) :
    findTableRow (SchemaRegistry.syncTable appId acc t).st.tables tid =
      findTableRow acc.st.tables tid := by
  unfold SchemaRegistry.syncTable
  dsimp only
  split
  · exact upsertTableRow_find_other acc.st.tables appId t tid h
  · rfl

/-- After one sync-loop step for a table, its stored row's checksum
equals the incoming schema's checksum (whether written or skipped). -/
theorem syncTable_find_self (appId : String) (acc : SchemaRegistry.SyncStep)
    (t : BudibaseTable) :
    ∃ row, findTableRow (SchemaRegistry.syncTable appId acc t).st.tables t._id = some row ∧
      SchemaRegistry.calculateChecksum (serializeSchema row.schema) =
        SchemaRegistry.calculateChecksum (serializeSchema t.schema) := by
  unfold SchemaRegistry.syncTable
  dsimp only
  split
  next hch =>
    obtain ⟨row, hf, hs⟩ := upsertTableRow_find_self acc.st.tables appId t
    exact ⟨row, hf, by rw [hs]⟩
  next hch =>
    rcases hfind : findTableRow acc.st.tables t._id with _ | row
    · rw [hfind] at hch
      simp at hch
    · rw [hfind] at hch
      refine ⟨row, rfl, ?_⟩
      simpa using hch

/-- One sync-loop step leaves other tables' version rows untouched. -/
theorem syncTable_versionsIn_other (appId : String) (acc : SchemaRegistry.SyncStep)
    (t : BudibaseTable) (tid : String) (h : (t._id == tid) = false) :
    versionsIn (SchemaRegistry.syncTable appId acc t).st.versions tid =
      versionsIn acc.st.versions tid := by
  rcases versionsIn_syncTable appId acc t with hv | hv <;> rw [hv]
  rw [versionsIn_append]
  dsimp only
  rw [h]
  simp

/-- A table with no stored row takes the write path. -/
theorem syncTable_versions_fresh (appId : String) (acc : SchemaRegistry.SyncStep)
    (t : BudibaseTable) (h : findTableRow acc.st.tables t._id = none) :
    (SchemaRegistry.syncTable appId acc t).st.versions =
      acc.st.versions ++
        [({ app_id := appId, table_id := t._id,
            version := SchemaRegistry.maxVersion acc.st.versions t._id + 1,
            schema := serializeSchema t.schema,
            checksum := SchemaRegistry.calculateChecksum (serializeSchema t.schema) } :
          VersionRow)] := by
  unfold SchemaRegistry.syncTable
  dsimp only
  rw [h]
  rfl

/-- The sync loop leaves unmentioned tables' rows untouched. -/
theorem syncFold_find_other (appId : String) (tid : String) :
    ∀ (ts : List BudibaseTable) (acc : SchemaRegistry.SyncStep),
    (∀ t ∈ ts, (t._id == tid) = false) →
    findTableRow ((ts.foldl (SchemaRegistry.syncTable appId) acc).st.tables) tid =
      findTableRow acc.st.tables tid := by
  intro ts
  induction ts with
  | nil => intro acc _; rfl
  | cons u us ih =>
    intro acc hall
    rw [List.foldl_cons, ih _ (fun t ht => hall t (List.mem_cons_of_mem u ht)),
      syncTable_tables_other appId acc u tid (hall u (List.mem_cons_self u us))]

/-- The sync loop leaves unmentioned tables' version rows untouched. -/
theorem syncFold_versionsIn_other (appId : String) (tid : String) :
    ∀ (ts : List BudibaseTable) (acc : SchemaRegistry.SyncStep),
    (∀ t ∈ ts, (t._id == tid) = false) →
    versionsIn ((ts.foldl (SchemaRegistry.syncTable appId) acc).st.versions) tid =
      versionsIn acc.st.versions tid := by
  intro ts
  induction ts with
  | nil => intro acc _; rfl
  | cons u us ih =>
    intro acc hall
    rw [List.foldl_cons, ih _ (fun t ht => hall t (List.mem_cons_of_mem u ht)),
      syncTable_versionsIn_other appId acc u tid (hall u (List.mem_cons_self u us))]

/-- After the sync loop over tables with distinct ids, every processed
table has a stored row whose checksum matches its schema. -/
theorem syncFold_establishes (appId : String) :
    ∀ (ts : List BudibaseTable) (acc : SchemaRegistry.SyncStep),
    (ts.map (fun t => t._id)).Nodup →
    ∀ t ∈ ts,
    ∃ row, findTableRow ((ts.foldl (SchemaRegistry.syncTable appId) acc).st.tables) t._id =
        some row ∧
      SchemaRegistry.calculateChecksum (serializeSchema row.schema) =
        SchemaRegistry.calculateChecksum (serializeSchema t.schema) := by
  intro ts
  induction ts with
  | nil => intro acc _ t ht; exact absurd ht (List.not_mem_nil t)
  | cons u us ih =>
    intro acc hnd t ht
    rw [List.foldl_cons]
    obtain ⟨hnotin, hnd2⟩ : (∀ x ∈ us, ¬x._id = u._id) ∧
        (List.map (fun t => t._id) us).Nodup := by simpa using hnd
    rcases List.mem_cons.mp ht with rfl | ht2
    · obtain ⟨row, hf, hcs⟩ := syncTable_find_self appId acc t
      refine ⟨row, ?_, hcs⟩
      rw [syncFold_find_other appId t._id us _ ?_]
      · exact hf
      · intro u2 hu2
        simpa using hnotin u2 hu2
    · exact ih _ hnd2 t ht2

/-- When every table's stored checksum already matches, the sync loop
performs no writes, emits nothing, and only touches the cache. -/
theorem syncFold_skip (appId : String) :
    ∀ (ts : List BudibaseTable) (acc : SchemaRegistry.SyncStep),
    (∀ t ∈ ts, ∃ row, findTableRow acc.st.tables t._id = some row ∧
      SchemaRegistry.calculateChecksum (serializeSchema row.schema) =
        SchemaRegistry.calculateChecksum (serializeSchema t.schema)) →
    (ts.foldl (SchemaRegistry.syncTable appId) acc).st.tables = acc.st.tables ∧
    (ts.foldl (SchemaRegistry.syncTable appId) acc).st.versions = acc.st.versions ∧
    (ts.foldl (SchemaRegistry.syncTable appId) acc).writes = acc.writes ∧
    (ts.foldl (SchemaRegistry.syncTable appId) acc).notifs = acc.notifs := by
  intro ts
  induction ts with
  | nil => intro acc _; exact ⟨rfl, rfl, rfl, rfl⟩
  | cons u us ih =>
    intro acc hall
    rw [List.foldl_cons]
    obtain ⟨row, hf, hcs⟩ := hall u (List.mem_cons_self u us)
    have hskip : SchemaRegistry.syncTable appId acc u =
        { acc with st := { acc.st with
            schemaCache := alistSet acc.st.schemaCache u._id u } } := by
      unfold SchemaRegistry.syncTable
      dsimp only
      rw [hf]
      dsimp only
      simp only [hcs, bne_self_eq_false]
      rfl
    rw [hskip]
    have hall2 : ∀ t ∈ us, ∃ row2,
        findTableRow { acc with st := { acc.st with
            schemaCache := alistSet acc.st.schemaCache u._id u } }.st.tables t._id = some row2 ∧
        SchemaRegistry.calculateChecksum (serializeSchema row2.schema) =
          SchemaRegistry.calculateChecksum (serializeSchema t.schema) :=
      fun t ht => hall t (List.mem_cons_of_mem u ht)
    obtain ⟨h1, h2, h3, h4⟩ := ih _ hall2
    exact ⟨h1, h2, h3, h4⟩

/-- Syncing distinct fresh tables stores exactly version 1 for each. -/
theorem syncFold_fresh_one (appId : String) :
    ∀ (ts : List BudibaseTable) (acc : SchemaRegistry.SyncStep),
    (ts.map (fun t => t._id)).Nodup →
    (∀ t ∈ ts, findTableRow acc.st.tables t._id = none ∧
      versionsIn acc.st.versions t._id = []) →
    ∀ t ∈ ts,
      versionsIn ((ts.foldl (SchemaRegistry.syncTable appId) acc).st.versions) t._id = [1] := by
  intro ts
  induction ts with
  | nil => intro acc _ _ t ht; exact absurd ht (List.not_mem_nil t)
  | cons u us ih =>
    intro acc hnd hfresh t ht
    rw [List.foldl_cons]
    obtain ⟨hnotin, hnd2⟩ : (∀ x ∈ us, ¬x._id = u._id) ∧
        (List.map (fun t => t._id) us).Nodup := by simpa using hnd
    obtain ⟨hfindu, hversu⟩ := hfresh u (List.mem_cons_self u us)
    have hverAfter :
        versionsIn (SchemaRegistry.syncTable appId acc u).st.versions u._id = [1] := by
      rw [syncTable_versions_fresh appId acc u hfindu, versionsIn_append]
      dsimp only
      rw [if_pos (beq_self_eq_true u._id), hversu]
      have hm : SchemaRegistry.maxVersion acc.st.versions u._id = 0 := by
        unfold SchemaRegistry.maxVersion
        rw [maxVersion_eq_foldl, hversu]
        rfl
      rw [hm]
      rfl
    rcases List.mem_cons.mp ht with rfl | ht2
    · rw [syncFold_versionsIn_other appId t._id us _
        (fun u2 hu2 => by simpa using hnotin u2 hu2)]
      exact hverAfter
    · refine ih _ hnd2 ?_ t ht2
      intro t2 ht2m
      obtain ⟨hft2, hvt2⟩ := hfresh t2 (List.mem_cons_of_mem u ht2m)
      have hne : (u._id == t2._id) = false := by
        refine Bool.eq_false_iff.mpr (fun hb => ?_)
        have heq : u._id = t2._id := by simpa using hb
        exact hnotin t2 ht2m heq.symm
      refine ⟨?_, ?_⟩
      · rw [syncTable_tables_other appId acc u t2._id hne]; exact hft2
      · rw [syncTable_versionsIn_other appId acc u t2._id hne]; exact hvt2

/-- C4, amended: re-syncing the same application with the same
(unchanged) tables, with distinct table ids, performs exactly one
persisted write on the second call — the unconditional application-row
upsert — and writes no table rows, no `SchemaVersion` rows and emits
no notification; and when the tables were fresh, the first call stored
exactly one `SchemaVersion` row (version 1) per table. -/
theorem C4_amended_second_sync_app_upsert_only :
    ∀ (st : RegistryState) (app : BudibaseApp) (tables : List BudibaseTable) (now now2 : Nat),
    (tables.map (fun t => t._id)).Nodup →
    ((SchemaRegistry.syncApplication
        (SchemaRegistry.syncApplication st app tables now).st app tables now2).writes =
      [SchemaRegistry.Write.upsertApp app._id] ∧
     (SchemaRegistry.syncApplication
        (SchemaRegistry.syncApplication st app tables now).st app tables now2).notifs = [] ∧
     (SchemaRegistry.syncApplication
        (SchemaRegistry.syncApplication st app tables now).st app tables now2).st.tables =
       (SchemaRegistry.syncApplication st app tables now).st.tables ∧
     (SchemaRegistry.syncApplication
        (SchemaRegistry.syncApplication st app tables now).st app tables now2).st.versions =
       (SchemaRegistry.syncApplication st app tables now).st.versions) ∧
    ((∀ t ∈ tables, findTableRow st.tables t._id = none ∧ versionsIn st.versions t._id = []) →
      ∀ t ∈ tables,
        versionsFor (SchemaRegistry.syncApplication st app tables now).st t._id = [1]) := by
  intro st app tables now now2 hnd
  constructor
  · have hskip := syncFold_skip app._id tables
      ⟨{ (SchemaRegistry.syncApplication st app tables now).st with
          apps := upsertAppRow (SchemaRegistry.syncApplication st app tables now).st.apps app now2 },
        [SchemaRegistry.Write.upsertApp app._id], []⟩ ?_
    · exact ⟨hskip.2.2.1, hskip.2.2.2, hskip.1, hskip.2.1⟩
    · intro t ht
      obtain ⟨row, hf, hcs⟩ := syncFold_establishes app._id tables
        ⟨{ st with apps := upsertAppRow st.apps app now },
          [SchemaRegistry.Write.upsertApp app._id], []⟩ hnd t ht
      exact ⟨row, hf, hcs⟩
  · intro hfresh t ht
    exact syncFold_fresh_one app._id tables
      ⟨{ st with apps := upsertAppRow st.apps app now },
        [SchemaRegistry.Write.upsertApp app._id], []⟩
      hnd (fun t2 ht2 => hfresh t2 ht2) t ht

/-- C4, witness: for the synced customers table, the second sync's only
write is the application upsert, and the first sync stored version 1. -/
theorem C4_amended_second_sync_app_upsert_only_witness :
    (SchemaRegistry.syncApplication stCustomers appOne [tblCustomers] 200).writes =
      [SchemaRegistry.Write.upsertApp appOne._id] ∧
    (SchemaRegistry.syncApplication stCustomers appOne [tblCustomers] 200).notifs = [] ∧
    versionsFor stCustomers "t1" = [1] := by
  have h := C4_amended_second_sync_app_upsert_only initState appOne [tblCustomers] 0 200 (by decide)
  refine ⟨h.1.1, h.1.2.1, ?_⟩
  exact h.2 (by decide) tblCustomers (List.mem_singleton.mpr rfl)
